import Mathlib

/-!
Verification of `Dots2Detector` (sglang `srt/function_call/dots_detector.py`).

Strings are modelled as `List Char`.  Python's `str.find`, slicing, `strip`,
`startswith`, `replace` and the `in` operator are embedded below.  Python's
`json` module (`json.loads` / `json.dumps`) is embedded with these documented
restrictions: numbers are modelled as integers (fraction/exponent parts are not
modelled), and `\uXXXX` escapes in string literals are not modelled; default
`json.dumps` separators `", "` / `": "` and the standard escape set are used.
-/

namespace DotsVerify

abbrev Str := List Char

/-- `matchAt hay pat i` is true when `pat` occurs in `hay` at index `i`
(the occurrence must fit inside `hay`, as for Python `str.find`). -/
def matchAt (hay pat : Str) (i : Nat) : Bool :=
  (hay.drop i).take pat.length == pat

def findFromAux (hay pat : Str) : Nat → Nat → Option Nat
  | _, 0 => none
  | i, fuel+1 => if matchAt hay pat i then some i else findFromAux hay pat (i+1) fuel

/-- Python `hay.find(pat, start)` (result `none` for Python's `-1`). -/
def strFindFrom (hay pat : Str) (start : Nat) : Option Nat :=
  findFromAux hay pat start (hay.length + 1 - start)

/-- Python `hay.find(pat)`. -/
def strFind (hay pat : Str) : Option Nat := strFindFrom hay pat 0

/-- Python `pat in hay` (substring test). -/
def containsTok (hay pat : Str) : Bool := (strFind hay pat).isSome

/-- Python `s[a:b]` for non-negative `a`, `b`. -/
def strSlice (s : Str) (a b : Nat) : Str := (s.take b).drop a

/-- Python `str` whitespace for `strip()`. -/
def pyIsSpace (c : Char) : Bool :=
  c = ' ' || c = '\t' || c = '\n' || c = '\r' || c = '\x0b' || c = '\x0c'

/-- Python `s.strip()`. -/
def pyStrip (s : Str) : Str :=
  ((s.dropWhile pyIsSpace).reverse.dropWhile pyIsSpace).reverse

/-- Python `big.startswith(small)`. -/
def strStarts (big small : Str) : Bool := big.take small.length == small

def removeTokAux (pat : Str) : Nat → Str → Str
  | 0, s => s
  | fuel+1, s =>
    match strFind s pat with
    | none => s
    | some p => s.take p ++ removeTokAux pat fuel (s.drop (p + pat.length))

/-- Python `s.replace(pat, "")` for a non-empty `pat`:
remove all (leftmost, non-overlapping) occurrences. -/
def removeTok (s pat : Str) : Str := removeTokAux pat (s.length + 1) s

/-- Python `while len(l) <= n: l.append(d)`. -/
def padTo {α : Type} (l : List α) (n : Nat) (d : α) : List α :=
  l ++ List.replicate (n + 1 - l.length) d

/-! ## JSON values (Python `json` module model) -/

inductive Json where
  | null : Json
  | bool : Bool → Json
  | int : Int → Json
  | str : Str → Json
  | arr : List Json → Json
  | obj : List (Str × Json) → Json

mutual

def decEqJson : (a b : Json) → Decidable (a = b)
  | .null, .null => isTrue rfl
  | .null, .bool _ => isFalse (fun h => Json.noConfusion h)
  | .null, .int _ => isFalse (fun h => Json.noConfusion h)
  | .null, .str _ => isFalse (fun h => Json.noConfusion h)
  | .null, .arr _ => isFalse (fun h => Json.noConfusion h)
  | .null, .obj _ => isFalse (fun h => Json.noConfusion h)
  | .bool _, .null => isFalse (fun h => Json.noConfusion h)
  | .bool a, .bool b =>
    match decEq a b with
    | isTrue h => isTrue (h ▸ rfl)
    | isFalse h => isFalse (by intro he; injection he with h2; exact h h2)
  | .bool _, .int _ => isFalse (fun h => Json.noConfusion h)
  | .bool _, .str _ => isFalse (fun h => Json.noConfusion h)
  | .bool _, .arr _ => isFalse (fun h => Json.noConfusion h)
  | .bool _, .obj _ => isFalse (fun h => Json.noConfusion h)
  | .int _, .null => isFalse (fun h => Json.noConfusion h)
  | .int _, .bool _ => isFalse (fun h => Json.noConfusion h)
  | .int a, .int b =>
    match decEq a b with
    | isTrue h => isTrue (h ▸ rfl)
    | isFalse h => isFalse (by intro he; injection he with h2; exact h h2)
  | .int _, .str _ => isFalse (fun h => Json.noConfusion h)
  | .int _, .arr _ => isFalse (fun h => Json.noConfusion h)
  | .int _, .obj _ => isFalse (fun h => Json.noConfusion h)
  | .str _, .null => isFalse (fun h => Json.noConfusion h)
  | .str _, .bool _ => isFalse (fun h => Json.noConfusion h)
  | .str _, .int _ => isFalse (fun h => Json.noConfusion h)
  | .str a, .str b =>
    match decEq a b with
    | isTrue h => isTrue (h ▸ rfl)
    | isFalse h => isFalse (by intro he; injection he with h2; exact h h2)
  | .str _, .arr _ => isFalse (fun h => Json.noConfusion h)
  | .str _, .obj _ => isFalse (fun h => Json.noConfusion h)
  | .arr _, .null => isFalse (fun h => Json.noConfusion h)
  | .arr _, .bool _ => isFalse (fun h => Json.noConfusion h)
  | .arr _, .int _ => isFalse (fun h => Json.noConfusion h)
  | .arr _, .str _ => isFalse (fun h => Json.noConfusion h)
  | .arr xs, .arr ys =>
    match decEqJsonList xs ys with
    | isTrue h => isTrue (h ▸ rfl)
    | isFalse h => isFalse (by intro he; injection he with h2; exact h h2)
  | .arr _, .obj _ => isFalse (fun h => Json.noConfusion h)
  | .obj _, .null => isFalse (fun h => Json.noConfusion h)
  | .obj _, .bool _ => isFalse (fun h => Json.noConfusion h)
  | .obj _, .int _ => isFalse (fun h => Json.noConfusion h)
  | .obj _, .str _ => isFalse (fun h => Json.noConfusion h)
  | .obj _, .arr _ => isFalse (fun h => Json.noConfusion h)
  | .obj xs, .obj ys =>
    match decEqJsonObj xs ys with
    | isTrue h => isTrue (h ▸ rfl)
    | isFalse h => isFalse (by intro he; injection he with h2; exact h h2)

def decEqJsonList : (a b : List Json) → Decidable (a = b)
  | [], [] => isTrue rfl
  | [], _ :: _ => isFalse (fun h => List.noConfusion h)
  | _ :: _, [] => isFalse (fun h => List.noConfusion h)
  | x :: xs, y :: ys =>
    match decEqJson x y with
    | isFalse h => isFalse (by intro he; injection he with h1 h2; exact h h1)
    | isTrue h1 =>
      match decEqJsonList xs ys with
      | isTrue h2 => isTrue (by rw [h1, h2])
      | isFalse h => isFalse (by intro he; injection he with ha hb; exact h hb)

def decEqJsonObj : (a b : List (Str × Json)) → Decidable (a = b)
  | [], [] => isTrue rfl
  | [], _ :: _ => isFalse (fun h => List.noConfusion h)
  | _ :: _, [] => isFalse (fun h => List.noConfusion h)
  | (k, v) :: xs, (k2, v2) :: ys =>
    match decEq k k2 with
    | isFalse h => isFalse (by intro he; injection he with h1 h2; injection h1 with ha hb; exact h ha)
    | isTrue hk =>
      match decEqJson v v2 with
      | isFalse h => isFalse (by intro he; injection he with h1 h2; injection h1 with ha hb; exact h hb)
      | isTrue hv =>
        match decEqJsonObj xs ys with
        | isTrue h2 => isTrue (by rw [hk, hv, h2])
        | isFalse h => isFalse (by intro he; injection he with ha hb; exact h hb)

end

instance : DecidableEq Json := decEqJson

/-- Python dict assignment `d[k] = v`: replace in place, else append. -/
def objInsert (kvs : List (Str × Json)) (k : Str) (v : Json) : List (Str × Json) :=
  match kvs with
  | [] => [(k, v)]
  | (k0, v0) :: rest => if k0 = k then (k0, v) :: rest else (k0, v0) :: objInsert rest k v

/-- First binding of `k` (objects built by `objInsert` have no duplicate keys). -/
def objGet (kvs : List (Str × Json)) (k : Str) : Option Json :=
  match kvs with
  | [] => none
  | (k0, v0) :: rest => if k0 = k then some v0 else objGet rest k

/-- `json.loads` builds a Python dict: later duplicate keys overwrite earlier values. -/
def dedupKeys (l : List (Str × Json)) : List (Str × Json) :=
  l.foldl (fun acc kv => objInsert acc kv.1 kv.2) []

/-- Python truthiness of a JSON-decoded value (`if func_args:`). -/
def jTruthy : Json → Bool
  | .null => false
  | .bool b => b
  | .int n => n != 0
  | .str s => !s.isEmpty
  | .arr xs => !xs.isEmpty
  | .obj kvs => !kvs.isEmpty

/-- `'{'` written without a brace character. -/
def objOpen : Char := Char.ofNat 123

/-- `'}'` written without a brace character. -/
def objClose : Char := Char.ofNat 125

/-! ### Serialization (`json.dumps`, default separators) -/

def hexDig (n : Nat) : Char :=
  if n < 10 then Char.ofNat ('0'.toNat + n) else Char.ofNat ('a'.toNat + (n - 10))

def escChar (c : Char) : Str :=
  if c = '"' then ['\\', '"']
  else if c = '\\' then ['\\', '\\']
  else if c = '\n' then ['\\', 'n']
  else if c = '\t' then ['\\', 't']
  else if c = '\r' then ['\\', 'r']
  else if c = Char.ofNat 8 then ['\\', 'b']
  else if c = Char.ofNat 12 then ['\\', 'f']
  else if c.toNat < 32 then ['\\', 'u', '0', '0', hexDig (c.toNat / 16), hexDig (c.toNat % 16)]
  else [c]

def dumpStr (s : Str) : Str := '"' :: (s.flatMap escChar ++ ['"'])

def intStr (n : Int) : Str :=
  if n < 0 then '-' :: Nat.toDigits 10 n.natAbs else Nat.toDigits 10 n.toNat

mutual

def dumpVal : Json → Str
  | .null => "null".data
  | .bool true => "true".data
  | .bool false => "false".data
  | .int n => intStr n
  | .str s => dumpStr s
  | .arr xs => '[' :: (dumpArr xs ++ [']'])
  | .obj kvs => objOpen :: (dumpObj kvs ++ [objClose])

def dumpArr : List Json → Str
  | [] => []
  | [x] => dumpVal x
  | x :: y :: rest => dumpVal x ++ [',', ' '] ++ dumpArr (y :: rest)

def dumpObj : List (Str × Json) → Str
  | [] => []
  | [(k, v)] => dumpStr k ++ [':', ' '] ++ dumpVal v
  | (k, v) :: e :: rest => dumpStr k ++ [':', ' '] ++ dumpVal v ++ [',', ' '] ++ dumpObj (e :: rest)

end

/-- `json.dumps(v)` with default options (ASCII data assumed). -/
def pyDumps (v : Json) : Str := dumpVal v

/-! ### Parsing (`json.loads`) -/

/-- JSON whitespace accepted by `json.loads`. -/
def jsonWs (c : Char) : Bool := c = ' ' || c = '\t' || c = '\n' || c = '\r'

def skipWs (s : Str) : Str := s.dropWhile jsonWs

def escDecode (c : Char) : Option Char :=
  if c = '"' then some '"'
  else if c = '\\' then some '\\'
  else if c = '/' then some '/'
  else if c = 'n' then some '\n'
  else if c = 't' then some '\t'
  else if c = 'r' then some '\r'
  else if c = 'b' then some (Char.ofNat 8)
  else if c = 'f' then some (Char.ofNat 12)
  else none

/-- Parse the rest of a JSON string literal (after the opening quote). -/
def parseStrLit : Str → Option (Str × Str)
  | [] => none
  | c :: rest =>
    if c = '"' then some ([], rest)
    else if c = '\\' then
      match rest with
      | [] => none
      | e :: rest2 =>
        match escDecode e with
        | none => none
        | some d =>
          match parseStrLit rest2 with
          | some (s, r) => some (d :: s, r)
          | none => none
    else if 32 ≤ c.toNat then
      match parseStrLit rest with
      | some (s, r) => some (c :: s, r)
      | none => none
    else none

def digitsToNat (ds : Str) : Nat :=
  ds.foldl (fun a c => a * 10 + (c.toNat - '0'.toNat)) 0

def natTok (s : Str) : Option (Nat × Str) :=
  let ds := s.takeWhile Char.isDigit
  let r := s.dropWhile Char.isDigit
  if ds.isEmpty then none
  else if 1 < ds.length && ds.head? = some '0' then none
  else some (digitsToNat ds, r)

/-- JSON number token, restricted to integers. -/
def parseNum : Str → Option (Json × Str)
  | '-' :: rest =>
    match natTok rest with
    | some (n, r) => some (.int (-(n : Int)), r)
    | none => none
  | s =>
    match natTok s with
    | some (n, r) => some (.int (n : Int), r)
    | none => none

mutual

def parseVal : Nat → Str → Option (Json × Str)
  | 0, _ => none
  | fuel+1, s =>
    match s with
    | [] => none
    | c :: rest =>
      if c = 'n' then
        if strStarts rest "ull".data then some (.null, rest.drop 3) else none
      else if c = 't' then
        if strStarts rest "rue".data then some (.bool true, rest.drop 3) else none
      else if c = 'f' then
        if strStarts rest "alse".data then some (.bool false, rest.drop 4) else none
      else if c = '"' then
        match parseStrLit rest with
        | some (s1, r) => some (.str s1, r)
        | none => none
      else if c = '[' then
        match skipWs rest with
        | ']' :: r2 => some (.arr [], r2)
        | r1 =>
          match parseElems fuel r1 with
          | some (xs, r) => some (.arr xs, r)
          | none => none
      else if c = objOpen then
        match skipWs rest with
        | d :: r2 =>
          if d = objClose then some (.obj [], r2)
          else
            match parseMembers fuel (d :: r2) with
            | some (kvs, r) => some (.obj (dedupKeys kvs), r)
            | none => none
        | [] => none
      else if c = '-' || c.isDigit then parseNum (c :: rest)
      else none

def parseElems : Nat → Str → Option (List Json × Str)
  | 0, _ => none
  | fuel+1, s =>
    match parseVal fuel s with
    | none => none
    | some (v, r) =>
      match skipWs r with
      | ',' :: r2 =>
        match parseElems fuel (skipWs r2) with
        | some (xs, r3) => some (v :: xs, r3)
        | none => none
      | ']' :: r2 => some ([v], r2)
      | _ => none

def parseMembers : Nat → Str → Option (List (Str × Json) × Str)
  | 0, _ => none
  | fuel+1, s =>
    match s with
    | '"' :: rest =>
      match parseStrLit rest with
      | none => none
      | some (k, r) =>
        match skipWs r with
        | ':' :: r2 =>
          match parseVal fuel (skipWs r2) with
          | none => none
          | some (v, r3) =>
            match skipWs r3 with
            | ',' :: r4 =>
              match parseMembers fuel (skipWs r4) with
              | some (kvs, r5) => some ((k, v) :: kvs, r5)
              | none => none
            | d :: r4 => if d = objClose then some ([(k, v)], r4) else none
            | [] => none
        | _ => none
    | _ => none

end

/-- `json.loads(s)`: parse one JSON document, `none` on `JSONDecodeError`. -/
def pyLoads (s : Str) : Option Json :=
  let t := skipWs s
  match parseVal (2 * t.length + 2) t with
  | some (v, r) => if skipWs r = [] then some v else none
  | none => none

/-- Python `dict.get(k)` on a decoded JSON object: `none` stands for Python
`None`, which arises both for a missing key and for a JSON `null` value. -/
def pyGet (kvs : List (Str × Json)) (k : Str) : Option Json :=
  match objGet kvs k with
  | none => none
  | some .null => none
  | some v => some v

/-- Python `dict.get(k, d)` on a decoded JSON object. -/
def pyGetD (kvs : List (Str × Json)) (k : Str) (d : Json) : Json :=
  (objGet kvs k).getD d

/-- Back from the `Option` view to a stored JSON value (Python `None` ↦ `null`). -/
def optJson (o : Option Json) : Json := o.getD .null

/-- Python `d[k] = v` on a stored JSON object (entries of `prev_tool_call_arr`
are always dicts; on a non-dict this is inert). -/
def jsonSetKey (j : Json) (k : Str) (v : Json) : Json :=
  match j with
  | .obj kvs => .obj (objInsert kvs k v)
  | other => other

/-- Modelled from the spec: `_is_complete_json` from
`sglang/srt/function_call/utils.py` is not under `src/`; per §4.4 it "attempts
to parse `candidate` as a JSON value; true iff it parses without error". -/
def isCompleteJson (s : Str) : Bool := (pyLoads s).isSome

/-! ## The DOTS-2 detector -/

def botTok : Str := "<dots_function_call>".data

def eotTok : Str := "</dots_function_call>".data

def keyName : Str := "name".data

def keyArgs : Str := "arguments".data

/-- Modelled from the spec (§3): one unit of emitted call information from
`sglang/srt/function_call/core_types.py` (not under `src/`): tool index,
optional name, parameter text fragment. -/
structure ToolCallItem where
  tool_index : Int
  name : Option Json
  parameters : Str
deriving DecidableEq

/-- Modelled from the spec (§3): output of one extraction step
(`StreamingParseResult` from `core_types.py`, not under `src/`). -/
structure StreamingParseResult where
  normal_text : Str
  calls : List ToolCallItem
deriving DecidableEq

/-- Modelled from the spec (§3): the cross-chunk `DetectorState`.  The mutable
fields of `Dots2Detector` / `BaseFormatDetector` (the base class is not under
`src/`): pending buffer, current tool index (-1 = no call started), last
emitted arguments text, name-sent flag, per-call snapshots (Python dicts,
stored as JSON objects), per-call streamed-argument-text list. -/
structure Dots2State where
  buffer : Str
  current_tool_id : Int
  last_arguments : Str
  current_tool_name_sent : Bool
  prev_tool_call_arr : List Json
  streamed_args_for_tool : List Str
deriving DecidableEq

/-- Modelled from the spec (§3): state of a freshly constructed detector. -/
def initState : Dots2State :=
  { buffer := []
    current_tool_id := -1
    last_arguments := []
    current_tool_name_sent := false
    prev_tool_call_arr := []
    streamed_args_for_tool := [] }

/-- `json.dumps(func_args) if func_args else ""` (lines 157 and 220). -/
def paramsOf (args : Json) : Str := if jTruthy args then pyDumps args else []

/-- Lines 129–179: a closing delimiter was found in the buffer.  `Except.error`
models the `AttributeError` raised by `.get` on a non-dict JSON value, caught
by the outer `except Exception` handler. -/
def completeBranch (s : Dots2State) (current_text : Str) (start_idx end_idx : Nat) :
    Except Unit (StreamingParseResult × Dots2State) :=
  let json_content := pyStrip (strSlice current_text (start_idx + botTok.length) end_idx)
  match pyLoads json_content with
  | none => .ok (⟨[], []⟩, s)
  | some j =>
    match j with
    | .obj kvs =>
      let func_name := pyGet kvs keyName
      let func_args := pyGetD kvs keyArgs (.obj [])
      let s1 := if s.current_tool_id = -1 then
          { s with current_tool_id := 0, prev_tool_call_arr := [],
                   streamed_args_for_tool := [[]] }
        else s
      let ct := s1.current_tool_id.toNat
      let prev1 := padTo s1.prev_tool_call_arr ct (Json.obj [])
      let streamed1 := padTo s1.streamed_args_for_tool ct []
      let item : ToolCallItem := ⟨s1.current_tool_id, func_name, paramsOf func_args⟩
      let prev2 := prev1.set ct (Json.obj [(keyName, optJson func_name), (keyArgs, func_args)])
      .ok (⟨[], [item]⟩,
        { buffer := current_text.drop (end_idx + eotTok.length)
          current_tool_id := s1.current_tool_id + 1
          last_arguments := []
          current_tool_name_sent := false
          prev_tool_call_arr := prev2
          streamed_args_for_tool := streamed1 })
    | _ => .error ()

/-- Lines 180–246: no closing delimiter yet; try the partial-JSON path.
The `pyLoads cand` match mirrors `if partial_json and _is_complete_json(...)`
followed by `json.loads` (the same parse, so the inner
`except json.JSONDecodeError` branch is unreachable but kept in shape). -/
def streamingBranch (s : Dots2State) (current_text : Str) (start_idx : Nat) :
    Except Unit (StreamingParseResult × Dots2State) :=
  let json_start := start_idx + botTok.length
  let cand := pyStrip (current_text.drop json_start)
  if cand.isEmpty then .ok (⟨[], []⟩, s)
  else
    match pyLoads cand with
    | none => .ok (⟨[], []⟩, s)
    | some j =>
      match j with
      | .obj kvs =>
        let func_name := pyGet kvs keyName
        let func_args := pyGetD kvs keyArgs (.obj [])
        let s1 := if s.current_tool_id = -1 then
            { s with current_tool_id := 0, prev_tool_call_arr := [],
                     streamed_args_for_tool := [[]], current_tool_name_sent := false }
          else s
        let ct := s1.current_tool_id.toNat
        let prev1 := padTo s1.prev_tool_call_arr ct (Json.obj [])
        let streamed1 := padTo s1.streamed_args_for_tool ct []
        let nameCalls : List ToolCallItem :=
          if s1.current_tool_name_sent then [] else [⟨s1.current_tool_id, func_name, []⟩]
        let prev1b := if s1.current_tool_name_sent then prev1
          else prev1.set ct (Json.obj [(keyName, optJson func_name), (keyArgs, Json.obj [])])
        let args_str := paramsOf func_args
        let diff := if strStarts args_str s1.last_arguments then
            args_str.drop s1.last_arguments.length
          else args_str
        let diffCalls : List ToolCallItem :=
          if diff.isEmpty then [] else [⟨s1.current_tool_id, none, diff⟩]
        .ok (⟨[], nameCalls ++ diffCalls⟩,
          { s1 with current_tool_name_sent := true
                    prev_tool_call_arr :=
                      if diff.isEmpty then prev1b
                      else prev1b.set ct (jsonSetKey (prev1b.getD ct (Json.obj [])) keyArgs func_args)
                    streamed_args_for_tool :=
                      if diff.isEmpty then streamed1
                      else streamed1.set ct (streamed1.getD ct [] ++ diff)
                    last_arguments :=
                      if diff.isEmpty then s1.last_arguments
                      else s1.last_arguments ++ diff })
      | _ => .error ()

/-- Lines 120–248: the body of the `try` block. -/
def streamInner (s : Dots2State) (current_text : Str) :
    Except Unit (StreamingParseResult × Dots2State) :=
  match strFind current_text botTok with
  | none => .ok (⟨[], []⟩, s)
  | some start_idx =>
    match strFindFrom current_text eotTok start_idx with
    | some end_idx => completeBranch s current_text start_idx end_idx
    | none => streamingBranch s current_text start_idx

/-- `Dots2Detector.parse_streaming_increment` (lines 95–252), as a pure step
on the detector state.  The `tools` argument only feeds `_get_tool_indices`,
which this method never reads, so it is not modelled. -/
def parse_streaming_increment (s : Dots2State) (new_text : Str) :
    StreamingParseResult × Dots2State :=
  let current_text := s.buffer ++ new_text
  if containsTok current_text botTok then
    let s0 := { s with buffer := current_text }
    match streamInner s0 current_text with
    | .ok out => out
    | .error _ => (⟨current_text, []⟩, s0)
  else
    (⟨removeTok new_text eotTok, []⟩, { s with buffer := [] })

/-- `re.findall(r"<dots_function_call>\s*(.*?)\s*</dots_function_call>", text,
re.DOTALL)`: leftmost non-overlapping regions, each interior running to the
first closing token after the opening token; the captured group is the
whitespace-trimmed interior, and since the caller re-strips it before
`json.loads`, the untrimmed interior is returned here. -/
def findallAux : Nat → Str → List Str
  | 0, _ => []
  | fuel+1, s =>
    match strFind s botTok with
    | none => []
    | some p =>
      match strFindFrom s eotTok (p + botTok.length) with
      | none => []
      | some q => strSlice s (p + botTok.length) q :: findallAux fuel (s.drop (q + eotTok.length))

def findallRegions (text : Str) : List Str := findallAux (text.length + 1) text

/-- Modelled from the spec: `BaseFormatDetector.parse_base_json` is not under
`src/`.  Per §4.2/§4.3/§6 it forwards the raw `name`/`arguments` pair as one
call item, appended in left-to-right order with sequential zero-based indices
and fully JSON-serialized arguments. -/
def parse_base_json (func_name : Option Json) (func_args : Json) (idx : Nat) :
    List ToolCallItem :=
  [⟨(idx : Int), func_name, pyDumps func_args⟩]

/-- The `for match_result in match_results` loop of `detect_and_parse`
(lines 78–89); `Except.error` is any raised exception: `JSONDecodeError` from
`json.loads` or `AttributeError` from `.get` on a non-dict. -/
def processRegions : List Str → List ToolCallItem → Except Unit (List ToolCallItem)
  | [], acc => .ok acc
  | r :: rs, acc =>
    match pyLoads (pyStrip r) with
    | none => .error ()
    | some j =>
      match j with
      | .obj kvs =>
        processRegions rs
          (acc ++ parse_base_json (pyGet kvs keyName) (pyGetD kvs keyArgs (.obj [])) acc.length)
      | _ => .error ()

/-- `Dots2Detector.detect_and_parse` (lines 59–93).  `text.find(bot_token)`
returning `none` is exactly `bot_token not in text`. -/
def detect_and_parse (text : Str) : StreamingParseResult :=
  match strFind text botTok with
  | none => ⟨text, []⟩
  | some idx =>
    let normal := pyStrip (text.take idx)
    match processRegions (findallRegions text) [] with
    | .ok calls => ⟨normal, calls⟩
    | .error _ => ⟨text, []⟩

/-- `has_tool_call` (line 55). -/
def has_tool_call (text : Str) : Bool := containsTok text botTok

/-! ## Incremental sessions -/

/-- One entry per fragment: state before, emitted result, state after. -/
abbrev TraceEntry := Dots2State × StreamingParseResult × Dots2State

def stepTrace : Dots2State → List Str → List TraceEntry
  | _, [] => []
  | s, t :: ts =>
    let out := parse_streaming_increment s t
    (s, out.1, out.2) :: stepTrace out.2 ts

def endState (s : Dots2State) (frags : List Str) : Dots2State :=
  frags.foldl (fun st t => (parse_streaming_increment st t).2) s

/-- `current_tool_id` after the lazy initialization from -1 to 0. -/
def ctidNorm (n : Int) : Int := if n = -1 then 0 else n

/-- A step consumed a closing delimiter exactly when the tool index advanced
to one past its (possibly just-initialized) value. -/
def isCompletingEntry (e : TraceEntry) : Bool :=
  e.2.2.current_tool_id == ctidNorm e.1.current_tool_id + 1

def entryCalls (e : TraceEntry) : List ToolCallItem := e.2.1.calls

def allItems (tr : List TraceEntry) : List ToolCallItem := tr.flatMap entryCalls

/-- Items emitted by non-completing (streamed) steps. -/
def ncItems (tr : List TraceEntry) : List ToolCallItem :=
  (tr.filter (fun e => !isCompletingEntry e)).flatMap entryCalls

/-- Items emitted by completing steps. -/
def compItems (tr : List TraceEntry) : List ToolCallItem :=
  (tr.filter isCompletingEntry).flatMap entryCalls

def itemsAt (i : Int) (l : List ToolCallItem) : List ToolCallItem :=
  l.filter (fun it => it.tool_index == i)

def namedAt (i : Int) (l : List ToolCallItem) : List ToolCallItem :=
  l.filter (fun it => it.tool_index == i && it.name.isSome)

def paramsConcat (l : List ToolCallItem) : Str := (l.map ToolCallItem.parameters).flatten

/-! ## Lemmas about the string primitives -/

lemma matchAt_iff {hay pat : Str} {i : Nat} :
    matchAt hay pat i = true ↔ (hay.drop i).take pat.length = pat := by
  simp [matchAt]

lemma matchAt_le_length {hay pat : Str} {i : Nat} (hp : pat ≠ [])
    (h : matchAt hay pat i = true) : i + pat.length ≤ hay.length := by
  rw [matchAt_iff] at h
  have hlen := congrArg List.length h
  have hpos : 0 < pat.length := List.length_pos.mpr hp
  simp [List.length_take, List.length_drop] at hlen
  omega

lemma matchAt_getElem {hay pat : Str} {i : Nat} (h : matchAt hay pat i = true)
    (k : Nat) (hk : k < pat.length) : hay[i + k]? = pat[k]? := by
  rw [matchAt_iff] at h
  have h1 : ((hay.drop i).take pat.length)[k]? = pat[k]? := by rw [h]
  rwa [List.getElem?_take_of_lt hk, List.getElem?_drop] at h1

lemma matchAt_append_right (x y pat : Str) (i : Nat) :
    matchAt (x ++ y) pat (x.length + i) = matchAt y pat i := by
  simp [matchAt, List.drop_append]

lemma matchAt_append_left {x y pat : Str} {j : Nat} (hfit : j + pat.length ≤ x.length) :
    matchAt (x ++ y) pat j = matchAt x pat j := by
  simp only [matchAt, List.drop_append_eq_append_drop]
  have hd : x.length - j + pat.length ≥ pat.length := Nat.le_add_left _ _
  rw [List.take_append_of_le_length (by simp [List.length_drop]; omega)]

lemma matchAt_take {hay pat : Str} {m i : Nat} (hp : pat ≠ [])
    (h : matchAt (hay.take m) pat i = true) :
    matchAt hay pat i = true ∧ i + pat.length ≤ m := by
  have hlen := matchAt_le_length hp h
  simp only [List.length_take] at hlen
  have hm : i + pat.length ≤ m := by omega
  have hh : i + pat.length ≤ hay.length := by omega
  constructor
  · rw [matchAt_iff] at h ⊢
    rw [List.drop_take] at h
    rwa [List.take_take, Nat.min_eq_left (by omega)] at h
  · exact hm

lemma matchAt_of_take {hay pat : Str} {m i : Nat}
    (h : matchAt hay pat i = true) (hfit : i + pat.length ≤ m) :
    matchAt (hay.take m) pat i = true := by
  rw [matchAt_iff] at h ⊢
  rw [List.drop_take, List.take_take, Nat.min_eq_left (by omega)]
  exact h

lemma matchAt_start (pat rest : Str) : matchAt (pat ++ rest) pat 0 = true := by
  rw [matchAt_iff]
  simp [List.take_left]

lemma matchAt_false_of_length {hay pat : Str} {i : Nat} (hp : pat ≠ [])
    (h : hay.length < i + pat.length) : matchAt hay pat i = false := by
  by_contra hc
  have := matchAt_le_length hp (by simpa using Bool.of_not_eq_false hc)
  omega

lemma findFromAux_some {hay pat : Str} :
    ∀ fuel i j, findFromAux hay pat i fuel = some j →
      i ≤ j ∧ matchAt hay pat j = true ∧ ∀ k, i ≤ k → k < j → matchAt hay pat k = false := by
  intro fuel
  induction fuel with
  | zero => intro i j h; simp [findFromAux] at h
  | succ n ih =>
    intro i j h
    rw [findFromAux] at h
    by_cases hm : matchAt hay pat i = true
    · simp [hm] at h
      subst h
      exact ⟨Nat.le_refl _, hm, fun k hk1 hk2 => absurd hk1 (by omega)⟩
    · simp [hm] at h
      obtain ⟨h1, h2, h3⟩ := ih (i+1) j h
      refine ⟨by omega, h2, fun k hk1 hk2 => ?_⟩
      rcases Nat.eq_or_lt_of_le hk1 with he | hl
      · subst he; simpa using hm
      · exact h3 k hl hk2

lemma findFromAux_none {hay pat : Str} :
    ∀ fuel i, findFromAux hay pat i fuel = none →
      ∀ k, i ≤ k → k < i + fuel → matchAt hay pat k = false := by
  intro fuel
  induction fuel with
  | zero => intro i _ k hk1 hk2; omega
  | succ n ih =>
    intro i h k hk1 hk2
    rw [findFromAux] at h
    by_cases hm : matchAt hay pat i = true
    · simp [hm] at h
    · simp [hm] at h
      rcases Nat.eq_or_lt_of_le hk1 with he | hl
      · subst he; simpa using hm
      · exact ih (i+1) h k hl (by omega)

lemma findFromAux_reaches {hay pat : Str} :
    ∀ fuel i m, i ≤ m → m < i + fuel → matchAt hay pat m = true →
      ∃ j, j ≤ m ∧ findFromAux hay pat i fuel = some j := by
  intro fuel
  induction fuel with
  | zero => intro i m h1 h2; omega
  | succ n ih =>
    intro i m h1 h2 hm
    rw [findFromAux]
    by_cases hi : matchAt hay pat i = true
    · exact ⟨i, h1, by simp [hi]⟩
    · rcases Nat.eq_or_lt_of_le h1 with he | hl
      · subst he; exact absurd hm hi
      · obtain ⟨j, hj1, hj2⟩ := ih (i+1) m hl (by omega) hm
        exact ⟨j, hj1, by simp [hi, hj2]⟩

lemma strFindFrom_eq_some_elim {hay pat : Str} {start j : Nat}
    (h : strFindFrom hay pat start = some j) :
    start ≤ j ∧ matchAt hay pat j = true ∧
      ∀ k, start ≤ k → k < j → matchAt hay pat k = false :=
  findFromAux_some _ _ _ h

lemma strFindFrom_eq_none_elim {hay pat : Str} (hp : pat ≠ []) {start : Nat}
    (h : strFindFrom hay pat start = none) :
    ∀ k, start ≤ k → matchAt hay pat k = false := by
  intro k hk
  by_cases hbig : hay.length < k + pat.length
  · exact matchAt_false_of_length hp hbig
  · have hk2 : k < start + (hay.length + 1 - start) := by
      have : 0 < pat.length := List.length_pos.mpr hp
      omega
    exact findFromAux_none _ _ h k hk hk2

lemma strFindFrom_eq_some_of {hay pat : Str} (hp : pat ≠ []) {start j : Nat}
    (hj : matchAt hay pat j = true) (hge : start ≤ j)
    (hmin : ∀ k, start ≤ k → k < j → matchAt hay pat k = false) :
    strFindFrom hay pat start = some j := by
  have hfit := matchAt_le_length hp hj
  have hpos : 0 < pat.length := List.length_pos.mpr hp
  obtain ⟨j', hle, heq⟩ := @findFromAux_reaches hay pat
    (hay.length + 1 - start) start j hge (by omega) hj
  obtain ⟨h1, h2, _⟩ := findFromAux_some _ _ _ heq
  rcases Nat.eq_or_lt_of_le hle with he | hl
  · rw [strFindFrom, heq, he]
  · exact absurd h2 (by simp [hmin j' h1 hl])

lemma strFind_eq_some_of {hay pat : Str} (hp : pat ≠ []) {j : Nat}
    (hj : matchAt hay pat j = true)
    (hmin : ∀ k, k < j → matchAt hay pat k = false) :
    strFind hay pat = some j :=
  strFindFrom_eq_some_of hp hj (Nat.zero_le _) (fun k _ => hmin k)

lemma strFind_eq_none_of {hay pat : Str}
    (h : ∀ k, matchAt hay pat k = false) : strFind hay pat = none := by
  cases he : strFind hay pat with
  | none => rfl
  | some j =>
    obtain ⟨_, h2, _⟩ := strFindFrom_eq_some_elim he
    rw [h j] at h2
    exact absurd h2 (by simp)

lemma containsTok_false_iff {hay pat : Str} :
    containsTok hay pat = false ↔ strFind hay pat = none := by
  simp [containsTok, Option.isSome]
  cases strFind hay pat <;> simp

lemma containsTok_eq_false_iff {hay pat : Str} (hp : pat ≠ []) :
    containsTok hay pat = false ↔ ∀ k, matchAt hay pat k = false := by
  rw [containsTok_false_iff]
  constructor
  · intro h k
    exact strFindFrom_eq_none_elim hp h k (Nat.zero_le _)
  · exact strFind_eq_none_of

lemma containsTok_eq_true_of {hay pat : Str} {k : Nat}
    (h : matchAt hay pat k = true) : containsTok hay pat = true := by
  by_contra hc
  have hfalse := Bool.of_not_eq_true hc
  rcases he : strFind hay pat with _ | j
  · by_cases hp : pat = []
    · subst hp
      simp [strFind, strFindFrom, findFromAux, matchAt] at he
    · rw [(containsTok_eq_false_iff hp).mp hfalse k] at h
      exact absurd h (by simp)
  · simp [containsTok, he] at hfalse

lemma removeTok_of_not_contains {s pat : Str} (h : containsTok s pat = false) :
    removeTok s pat = s := by
  rw [removeTok, removeTokAux, containsTok_false_iff.mp h]

/-- Occurrences of a pattern whose first character `c` occurs nowhere else in
the pattern cannot straddle the boundary of `a ++ pat ++ rest`: any occurrence
strictly left of the boundary lies inside `a`. -/
lemma matchAt_append_boundary {a rest pat : Str} {c : Char}
    (hc : pat[0]? = some c)
    (hn : ∀ k, 0 < k → k < pat.length → pat[k]? ≠ some c)
    {j : Nat} (hj : matchAt (a ++ (pat ++ rest)) pat j = true) (hlt : j < a.length) :
    matchAt a pat j = true := by
  by_cases hfit : j + pat.length ≤ a.length
  · rw [matchAt_append_left hfit] at hj
    exact hj
  · exfalso
    have hp : pat ≠ [] := by intro h; subst h; simp at hc
    have hk2 : a.length - j < pat.length := by omega
    have hchar := matchAt_getElem hj (a.length - j) hk2
    rw [show j + (a.length - j) = a.length by omega] at hchar
    rw [List.getElem?_append_right (Nat.le_refl _), Nat.sub_self] at hchar
    rw [List.getElem?_append_left (List.length_pos.mpr hp), hc] at hchar
    exact hn (a.length - j) (by omega) hk2 hchar.symm

/-- First occurrence of such a pattern in `a ++ pat ++ rest`, when it does not
occur in `a`, is exactly at the boundary. -/
lemma strFind_append_boundary {a rest pat : Str} {c : Char}
    (hc : pat[0]? = some c)
    (hn : ∀ k, 0 < k → k < pat.length → pat[k]? ≠ some c)
    (hnotin : containsTok a pat = false) :
    strFind (a ++ (pat ++ rest)) pat = some a.length := by
  have hp : pat ≠ [] := by intro h; subst h; simp at hc
  apply strFind_eq_some_of hp
  · have := matchAt_append_right a (pat ++ rest) pat 0
    rw [Nat.add_zero] at this
    rw [this]
    exact matchAt_start pat rest
  · intro k hk
    by_contra hcon
    have hm : matchAt (a ++ (pat ++ rest)) pat k = true := by
      simpa using Bool.of_not_eq_false hcon
    have hin := matchAt_append_boundary hc hn hm hk
    rw [(containsTok_eq_false_iff hp).mp hnotin k] at hin
    exact absurd hin (by simp)

lemma strFindFrom_append_shift {x y pat : Str} (hp : pat ≠ []) {i : Nat}
    (h : strFind y pat = some i) :
    strFindFrom (x ++ y) pat x.length = some (x.length + i) := by
  obtain ⟨_, h2, h3⟩ := strFindFrom_eq_some_elim h
  apply strFindFrom_eq_some_of hp
  · rw [matchAt_append_right]
    exact h2
  · omega
  · intro k hk1 hk2
    obtain ⟨d, hd⟩ := Nat.exists_eq_add_of_le hk1
    subst hd
    rw [matchAt_append_right]
    exact h3 d (Nat.zero_le _) (by omega)

/-! ### Decidable character facts about the two delimiter tokens -/

lemma botTok_ne_nil : botTok ≠ [] := by decide

lemma eotTok_ne_nil : eotTok ≠ [] := by decide

lemma botTok_head : botTok[0]? = some '<' := by decide

lemma eotTok_head : eotTok[0]? = some '<' := by decide

lemma botTok_no_lt : ∀ k, k < botTok.length → 0 < k → botTok[k]? ≠ some '<' := by decide

lemma eotTok_no_lt : ∀ k, k < eotTok.length → 0 < k → eotTok[k]? ≠ some '<' := by decide

/-! ## Step-level behaviour of `parse_streaming_increment` -/

lemma step_no_bot {s : Dots2State} {t : Str}
    (h : containsTok (s.buffer ++ t) botTok = false) :
    parse_streaming_increment s t =
      (⟨removeTok t eotTok, []⟩, { s with buffer := [] }) := by
  simp [parse_streaming_increment, h]

lemma step_error {s : Dots2State} {t : Str}
    (hb : containsTok (s.buffer ++ t) botTok = true)
    (he : streamInner { s with buffer := s.buffer ++ t } (s.buffer ++ t) = .error ()) :
    parse_streaming_increment s t =
      (⟨s.buffer ++ t, []⟩, { s with buffer := s.buffer ++ t }) := by
  simp [parse_streaming_increment, hb, he]

lemma step_ok {s : Dots2State} {t : Str} {out : StreamingParseResult × Dots2State}
    (hb : containsTok (s.buffer ++ t) botTok = true)
    (hok : streamInner { s with buffer := s.buffer ++ t } (s.buffer ++ t) = .ok out) :
    parse_streaming_increment s t = out := by
  simp [parse_streaming_increment, hb, hok]

/-- `prev_tool_call_arr` as seen after the lazy re-initialization. -/
def prevBase (s : Dots2State) : List Json :=
  if s.current_tool_id = -1 then [] else s.prev_tool_call_arr

/-- `streamed_args_for_tool` as seen after the lazy re-initialization. -/
def streamedBase (s : Dots2State) : List Str :=
  if s.current_tool_id = -1 then [[]] else s.streamed_args_for_tool

/-- `current_tool_name_sent` as seen after the lazy re-initialization of the
streaming branch. -/
def flagBase (s : Dots2State) : Bool :=
  if s.current_tool_id = -1 then false else s.current_tool_name_sent

/-- Outcome of the complete-call branch when the interior parses as an object:
one item carrying the name and the fully serialized arguments. -/
def completeOut (s : Dots2State) (ct : Str) (q : Nat) (nm : Option Json) (ag : Json) :
    StreamingParseResult × Dots2State :=
  let ctN := (ctidNorm s.current_tool_id).toNat
  (⟨[], [⟨ctidNorm s.current_tool_id, nm, paramsOf ag⟩]⟩,
   { buffer := ct.drop (q + eotTok.length)
     current_tool_id := ctidNorm s.current_tool_id + 1
     last_arguments := []
     current_tool_name_sent := false
     prev_tool_call_arr :=
       (padTo (prevBase s) ctN (Json.obj [])).set ctN
         (Json.obj [(keyName, optJson nm), (keyArgs, ag)])
     streamed_args_for_tool := padTo (streamedBase s) ctN [] })

/-- Outcome of the streaming branch when the candidate parses as an object:
a name item if the name was not sent yet, then an argument-diff item if the
diff is non-empty. -/
def streamingOut (s : Dots2State) (nm : Option Json) (ag : Json) :
    StreamingParseResult × Dots2State :=
  let ctidI := ctidNorm s.current_tool_id
  let ctN := ctidI.toNat
  let flag1 := flagBase s
  let prev1 := padTo (prevBase s) ctN (Json.obj [])
  let streamed1 := padTo (streamedBase s) ctN []
  let nameCalls : List ToolCallItem := if flag1 then [] else [⟨ctidI, nm, []⟩]
  let prev1b := if flag1 then prev1
    else prev1.set ctN (Json.obj [(keyName, optJson nm), (keyArgs, Json.obj [])])
  let args_str := paramsOf ag
  let diff := if strStarts args_str s.last_arguments then
      args_str.drop s.last_arguments.length else args_str
  let diffCalls : List ToolCallItem :=
    if diff.isEmpty then [] else [⟨ctidI, none, diff⟩]
  (⟨[], nameCalls ++ diffCalls⟩,
   { buffer := s.buffer
     current_tool_id := ctidI
     last_arguments := if diff.isEmpty then s.last_arguments else s.last_arguments ++ diff
     current_tool_name_sent := true
     prev_tool_call_arr :=
       if diff.isEmpty then prev1b
       else prev1b.set ctN (jsonSetKey (prev1b.getD ctN (Json.obj [])) keyArgs ag)
     streamed_args_for_tool :=
       if diff.isEmpty then streamed1
       else streamed1.set ctN (streamed1.getD ctN [] ++ diff) })

lemma completeBranch_obj {s : Dots2State} {ct : Str} {p q : Nat} {kvs : List (Str × Json)}
    (h : pyLoads (pyStrip (strSlice ct (p + botTok.length) q)) = some (.obj kvs)) :
    completeBranch s ct p q =
      .ok (completeOut s ct q (pyGet kvs keyName) (pyGetD kvs keyArgs (.obj []))) := by
  unfold completeBranch completeOut
  simp only [h]
  by_cases hc : s.current_tool_id = -1 <;>
    simp [hc, ctidNorm, prevBase, streamedBase]

lemma streamingBranch_obj {s : Dots2State} {ct : Str} {start : Nat} {kvs : List (Str × Json)}
    (hcand : (pyStrip (ct.drop (start + botTok.length))).isEmpty = false)
    (h : pyLoads (pyStrip (ct.drop (start + botTok.length))) = some (.obj kvs)) :
    streamingBranch s ct start =
      .ok (streamingOut s (pyGet kvs keyName) (pyGetD kvs keyArgs (.obj []))) := by
  unfold streamingBranch streamingOut
  simp only [hcand, h, Bool.false_eq_true, if_false]
  by_cases hc : s.current_tool_id = -1 <;>
    simp [hc, ctidNorm, prevBase, streamedBase, flagBase]

lemma ctidNorm_ne_self_succ (n : Int) : ¬ n = ctidNorm n + 1 := by
  unfold ctidNorm
  split <;> omega

lemma ctidNorm_idem (n : Int) : ctidNorm (ctidNorm n) = ctidNorm n := by
  by_cases h : n = -1 <;> simp [ctidNorm, h]

lemma ctidNorm_nonneg (n : Int) (h : -1 ≤ n) : 0 ≤ ctidNorm n := by
  unfold ctidNorm
  split <;> omega

lemma ctidNorm_le (n : Int) : n ≤ ctidNorm n := by
  unfold ctidNorm
  split <;> omega

/-- The computed diff of the streaming branch. -/
def streamDiff (s : Dots2State) (ag : Json) : Str :=
  if strStarts (paramsOf ag) s.last_arguments then
    (paramsOf ag).drop s.last_arguments.length
  else paramsOf ag

lemma streamingOut_calls (s : Dots2State) (nm : Option Json) (ag : Json) :
    (streamingOut s nm ag).1.calls =
      (if flagBase s then [] else [⟨ctidNorm s.current_tool_id, nm, []⟩]) ++
      (if (streamDiff s ag).isEmpty then []
       else [⟨ctidNorm s.current_tool_id, none, streamDiff s ag⟩]) := rfl

lemma streamingOut_normal (s : Dots2State) (nm : Option Json) (ag : Json) :
    (streamingOut s nm ag).1.normal_text = [] := rfl

lemma streamingOut_ctid (s : Dots2State) (nm : Option Json) (ag : Json) :
    (streamingOut s nm ag).2.current_tool_id = ctidNorm s.current_tool_id := rfl

lemma streamingOut_flag (s : Dots2State) (nm : Option Json) (ag : Json) :
    (streamingOut s nm ag).2.current_tool_name_sent = true := rfl

lemma streamingOut_buffer (s : Dots2State) (nm : Option Json) (ag : Json) :
    (streamingOut s nm ag).2.buffer = s.buffer := rfl

lemma streamingOut_streamed (s : Dots2State) (nm : Option Json) (ag : Json) :
    (streamingOut s nm ag).2.streamed_args_for_tool =
      (if (streamDiff s ag).isEmpty then
        padTo (streamedBase s) (ctidNorm s.current_tool_id).toNat []
      else
        (padTo (streamedBase s) (ctidNorm s.current_tool_id).toNat []).set
          (ctidNorm s.current_tool_id).toNat
          ((padTo (streamedBase s) (ctidNorm s.current_tool_id).toNat
            []).getD (ctidNorm s.current_tool_id).toNat [] ++ streamDiff s ag)) := rfl

lemma completeOut_calls (s : Dots2State) (ct : Str) (q : Nat) (nm : Option Json) (ag : Json) :
    (completeOut s ct q nm ag).1.calls = [⟨ctidNorm s.current_tool_id, nm, paramsOf ag⟩] := rfl

lemma completeOut_normal (s : Dots2State) (ct : Str) (q : Nat) (nm : Option Json) (ag : Json) :
    (completeOut s ct q nm ag).1.normal_text = [] := rfl

lemma completeOut_ctid (s : Dots2State) (ct : Str) (q : Nat) (nm : Option Json) (ag : Json) :
    (completeOut s ct q nm ag).2.current_tool_id = ctidNorm s.current_tool_id + 1 := rfl

lemma completeOut_flag (s : Dots2State) (ct : Str) (q : Nat) (nm : Option Json) (ag : Json) :
    (completeOut s ct q nm ag).2.current_tool_name_sent = false := rfl

lemma completeOut_streamed (s : Dots2State) (ct : Str) (q : Nat) (nm : Option Json) (ag : Json) :
    (completeOut s ct q nm ag).2.streamed_args_for_tool =
      padTo (streamedBase s) (ctidNorm s.current_tool_id).toNat [] := rfl

/-- Classification of one incremental step: no-delimiter passthrough, quiet
buffering, degraded error return, completing emission, or streaming emission. -/
lemma step_cases (s : Dots2State) (t : Str) :
    (containsTok (s.buffer ++ t) botTok = false ∧
      parse_streaming_increment s t = (⟨removeTok t eotTok, []⟩, { s with buffer := [] }))
    ∨ parse_streaming_increment s t = (⟨[], []⟩, { s with buffer := s.buffer ++ t })
    ∨ parse_streaming_increment s t =
        (⟨s.buffer ++ t, []⟩, { s with buffer := s.buffer ++ t })
    ∨ (∃ p q kvs, strFind (s.buffer ++ t) botTok = some p ∧
        strFindFrom (s.buffer ++ t) eotTok p = some q ∧
        pyLoads (pyStrip (strSlice (s.buffer ++ t) (p + botTok.length) q)) =
          some (.obj kvs) ∧
        parse_streaming_increment s t =
          completeOut { s with buffer := s.buffer ++ t } (s.buffer ++ t) q
            (pyGet kvs keyName) (pyGetD kvs keyArgs (.obj [])))
    ∨ (∃ nm ag, parse_streaming_increment s t =
        streamingOut { s with buffer := s.buffer ++ t } nm ag) := by
  by_cases hb : containsTok (s.buffer ++ t) botTok = true
  · cases hf : strFind (s.buffer ++ t) botTok with
    | none =>
      right; left
      apply step_ok hb
      simp [streamInner, hf]
    | some p =>
      cases he : strFindFrom (s.buffer ++ t) eotTok p with
      | some q =>
        cases hl : pyLoads (pyStrip (strSlice (s.buffer ++ t) (p + botTok.length) q)) with
        | none =>
          right; left
          apply step_ok hb
          simp [streamInner, hf, he, completeBranch, hl]
        | some j =>
          cases j with
          | obj kvs =>
            right; right; right; left
            refine ⟨p, q, kvs, rfl, he, hl, ?_⟩
            apply step_ok hb
            simp only [streamInner, hf, he]
            exact completeBranch_obj hl
          | null =>
            right; right; left
            apply step_error hb
            simp [streamInner, hf, he, completeBranch, hl]
          | bool b =>
            right; right; left
            apply step_error hb
            simp [streamInner, hf, he, completeBranch, hl]
          | int n =>
            right; right; left
            apply step_error hb
            simp [streamInner, hf, he, completeBranch, hl]
          | str st =>
            right; right; left
            apply step_error hb
            simp [streamInner, hf, he, completeBranch, hl]
          | arr xs =>
            right; right; left
            apply step_error hb
            simp [streamInner, hf, he, completeBranch, hl]
      | none =>
        by_cases hcand : (pyStrip ((s.buffer ++ t).drop (p + botTok.length))).isEmpty = false
        · cases hl : pyLoads (pyStrip ((s.buffer ++ t).drop (p + botTok.length))) with
          | none =>
            right; left
            apply step_ok hb
            simp [streamInner, hf, he, streamingBranch, hcand, hl]
          | some j =>
            cases j with
            | obj kvs =>
              right; right; right; right
              refine ⟨pyGet kvs keyName, pyGetD kvs keyArgs (.obj []), ?_⟩
              apply step_ok hb
              simp only [streamInner, hf, he]
              exact streamingBranch_obj hcand hl
            | null =>
              right; right; left
              apply step_error hb
              simp [streamInner, hf, he, streamingBranch, hcand, hl]
            | bool b =>
              right; right; left
              apply step_error hb
              simp [streamInner, hf, he, streamingBranch, hcand, hl]
            | int n =>
              right; right; left
              apply step_error hb
              simp [streamInner, hf, he, streamingBranch, hcand, hl]
            | str st =>
              right; right; left
              apply step_error hb
              simp [streamInner, hf, he, streamingBranch, hcand, hl]
            | arr xs =>
              right; right; left
              apply step_error hb
              simp [streamInner, hf, he, streamingBranch, hcand, hl]
        · right; left
          apply step_ok hb
          simp [streamInner, hf, he, streamingBranch, Bool.of_not_eq_false hcand]
  · left
    exact ⟨Bool.of_not_eq_true hb, step_no_bot (Bool.of_not_eq_true hb)⟩

lemma containsTok_true_of_find {hay pat : Str} {j : Nat}
    (h : strFind hay pat = some j) : containsTok hay pat = true := by
  simp [containsTok, h]

instance {ε α : Type} [DecidableEq ε] [DecidableEq α] : DecidableEq (Except ε α) := fun a b =>
  match a, b with
  | .error e, .error f =>
    if h : e = f then isTrue (by rw [h])
    else isFalse (by intro hh; injection hh with h2; exact h h2)
  | .ok x, .ok y =>
    if h : x = y then isTrue (by rw [h])
    else isFalse (by intro hh; injection hh with h2; exact h h2)
  | .error _, .ok _ => isFalse (fun hh => Except.noConfusion hh)
  | .ok _, .error _ => isFalse (fun hh => Except.noConfusion hh)

/-! ## Concrete inputs used in witnesses and counterexamples -/

/-- `{"name":"f","arguments":{"x":1}}` -/
def jsonF : Str := "\x7b\"name\":\"f\",\"arguments\":\x7b\"x\":1\x7d\x7d".data

/-- A fully-formed single call text. -/
def callF : Str := botTok ++ jsonF ++ eotTok

/-- A delimited region whose interior is valid JSON but not an object. -/
def callFive : Str := botTok ++ "5".data ++ eotTok

/-- A call followed by trailing text. -/
def callFTail : Str := callF ++ "tail".data

/-- The dict decoded from `jsonF`. -/
def kvsF : List (Str × Json) :=
  [("name".data, Json.str "f".data), ("arguments".data, Json.obj [("x".data, Json.int 1)])]

/-! ## Claim theorems -/

/-- C10: whenever a step finds no opening delimiter in the combined pending
buffer, it clears the buffer and returns only the newest fragment (with all
closing-delimiter substrings removed) as plain text with no calls, so text
left in the buffer by earlier steps is silently dropped from the output. -/
theorem C10_residue_discarded (s : Dots2State) (t : Str)
    (h : containsTok (s.buffer ++ t) botTok = false) :
    parse_streaming_increment s t = (⟨removeTok t eotTok, []⟩, { s with buffer := [] }) :=
  step_no_bot h

theorem C10_residue_discarded_witness :
    containsTok ((endState initState [callFTail]).buffer ++ "x".data) botTok = false ∧
    (endState initState [callFTail]).buffer = "tail".data ∧
    parse_streaming_increment (endState initState [callFTail]) "x".data =
      (⟨removeTok "x".data eotTok, []⟩,
       { endState initState [callFTail] with buffer := [] }) :=
  ⟨by decide, by decide, C10_residue_discarded _ _ (by decide)⟩

/-- C8: if the body of the `try` block raises an exception that is not a
JSON-decode failure (here: `.get` on a non-dict decoded value) while the
buffer contains an opening delimiter, the exception is not propagated; the
step returns the entire buffered text as plain text with no calls. -/
theorem C8_exception_degrades (s : Dots2State) (t : Str)
    (hb : containsTok (s.buffer ++ t) botTok = true)
    (he : streamInner { s with buffer := s.buffer ++ t } (s.buffer ++ t) = .error ()) :
    parse_streaming_increment s t =
      (⟨s.buffer ++ t, []⟩, { s with buffer := s.buffer ++ t }) :=
  step_error hb he

theorem C8_exception_degrades_witness :
    containsTok (initState.buffer ++ callFive) botTok = true ∧
    streamInner { initState with buffer := initState.buffer ++ callFive }
      (initState.buffer ++ callFive) = .error () ∧
    parse_streaming_increment initState callFive =
      (⟨initState.buffer ++ callFive, []⟩,
       { initState with buffer := initState.buffer ++ callFive }) :=
  ⟨by decide, by decide, C8_exception_degrades _ _ (by decide) (by decide)⟩

/-- C5: in one-shot mode, if processing any delimited region fails (JSON
decode failure or a raised exception), `detect_and_parse` returns the
original input text unmodified with an empty call list — no partial results
from earlier regions survive. -/
theorem C5_all_or_nothing (text : Str)
    (h : processRegions (findallRegions text) [] = .error ()) :
    detect_and_parse text = ⟨text, []⟩ := by
  unfold detect_and_parse
  cases hf : strFind text botTok with
  | none => rfl
  | some p => simp [h]

theorem C5_all_or_nothing_witness :
    processRegions (findallRegions (callF ++ botTok ++ "oops".data ++ eotTok)) [] =
      .error () ∧
    detect_and_parse (callF ++ botTok ++ "oops".data ++ eotTok) =
      ⟨callF ++ botTok ++ "oops".data ++ eotTok, []⟩ :=
  ⟨by decide, C5_all_or_nothing _ (by decide)⟩

/-- C7 as stated is false: for a text with no opening delimiter that contains
the closing token, one-shot extraction returns it unchanged but incremental
extraction strips the closing token (here the whole text), returning `""`. -/
theorem C7_passthrough_counterexample :
    containsTok eotTok botTok = false ∧
    detect_and_parse eotTok = ⟨eotTok, []⟩ ∧
    (parse_streaming_increment initState eotTok).1.normal_text = [] ∧
    eotTok ≠ [] := by decide

/-- C7 amended: for any text containing neither the opening delimiter nor any
closing-delimiter substring, one-shot extraction and a fresh incremental step
both return the text unchanged as plain text with no calls (and the
incremental state is unchanged). -/
theorem C7_passthrough_amended (t : Str)
    (hb : containsTok t botTok = false) (he : containsTok t eotTok = false) :
    detect_and_parse t = ⟨t, []⟩ ∧
    parse_streaming_increment initState t = (⟨t, []⟩, initState) := by
  constructor
  · unfold detect_and_parse
    rw [containsTok_false_iff.mp hb]
  · have h0 : initState.buffer ++ t = t := by simp [initState]
    have hs := @step_no_bot initState t (by rw [h0]; exact hb)
    rw [hs, removeTok_of_not_contains he]
    rfl

theorem C7_passthrough_amended_witness :
    containsTok "hello world".data botTok = false ∧
    containsTok "hello world".data eotTok = false ∧
    (detect_and_parse "hello world".data = ⟨"hello world".data, []⟩ ∧
     parse_streaming_increment initState "hello world".data =
       (⟨"hello world".data, []⟩, initState)) :=
  ⟨by decide, by decide, C7_passthrough_amended _ (by decide) (by decide)⟩

/-- C4 as stated is false: with buffer `<bot>5<eot>` the interior `5` parses
as JSON, yet the step returns the whole buffered text as plain text and no
call item (the `.get` on the non-dict value raises, caught by the outer
handler). -/
theorem C4_complete_call_counterexample :
    strFind callFive botTok = some 0 ∧
    strFindFrom callFive eotTok 0 = some 21 ∧
    pyLoads (pyStrip (strSlice callFive (0 + botTok.length) 21)) = some (.int 5) ∧
    (parse_streaming_increment initState callFive).1.calls = [] ∧
    (parse_streaming_increment initState callFive).1.normal_text = callFive := by decide

/-- C4 amended: when the buffer contains the opening delimiter (first at `p`)
with a closing delimiter after it (first at `q`) and the whitespace-stripped
interior parses as a JSON *object*, the step returns empty plain text and
exactly one call item whose index is the tool index after the lazy
initialization, whose name is the parsed name and whose parameters are the
full JSON-encoded arguments (empty when the arguments value is absent or
Python-falsy); the buffer becomes everything after the closing delimiter and
the tool index becomes one more than the emitted index. -/
theorem C4_complete_call_amended (s : Dots2State) (t : Str) (p q : Nat)
    (kvs : List (Str × Json))
    (hf : strFind (s.buffer ++ t) botTok = some p)
    (he : strFindFrom (s.buffer ++ t) eotTok p = some q)
    (hl : pyLoads (pyStrip (strSlice (s.buffer ++ t) (p + botTok.length) q)) =
      some (.obj kvs)) :
    (parse_streaming_increment s t).1 =
      ⟨[], [⟨ctidNorm s.current_tool_id, pyGet kvs keyName,
             paramsOf (pyGetD kvs keyArgs (.obj []))⟩]⟩ ∧
    (parse_streaming_increment s t).2.buffer = (s.buffer ++ t).drop (q + eotTok.length) ∧
    (parse_streaming_increment s t).2.current_tool_id = ctidNorm s.current_tool_id + 1 := by
  have hb : containsTok (s.buffer ++ t) botTok = true := containsTok_true_of_find hf
  have hstep : parse_streaming_increment s t =
      completeOut { s with buffer := s.buffer ++ t } (s.buffer ++ t) q
        (pyGet kvs keyName) (pyGetD kvs keyArgs (.obj [])) := by
    apply step_ok hb
    simp only [streamInner, hf, he]
    exact completeBranch_obj hl
  rw [hstep]
  exact ⟨rfl, rfl, rfl⟩

theorem C4_complete_call_witness :
    strFind callF botTok = some 0 ∧
    strFindFrom callF eotTok 0 = some (botTok.length + jsonF.length) ∧
    pyLoads (pyStrip (strSlice callF (0 + botTok.length) (botTok.length + jsonF.length))) =
      some (.obj kvsF) ∧
    ((parse_streaming_increment initState callF).1 =
      ⟨[], [⟨ctidNorm initState.current_tool_id, pyGet kvsF keyName,
             paramsOf (pyGetD kvsF keyArgs (.obj []))⟩]⟩ ∧
     (parse_streaming_increment initState callF).2.buffer =
       (initState.buffer ++ callF).drop (botTok.length + jsonF.length + eotTok.length) ∧
     (parse_streaming_increment initState callF).2.current_tool_id =
       ctidNorm initState.current_tool_id + 1) :=
  ⟨by decide, by decide, by decide,
   C4_complete_call_amended initState callF 0 (botTok.length + jsonF.length) kvsF
     (by decide) (by decide) (by decide)⟩

lemma findallAux_succ (fuel : Nat) (s : Str) :
    findallAux (fuel + 1) s =
      match strFind s botTok with
      | none => []
      | some p =>
        match strFindFrom s eotTok (p + botTok.length) with
        | none => []
        | some q =>
          strSlice s (p + botTok.length) q :: findallAux fuel (s.drop (q + eotTok.length)) := rfl

lemma findallAux_no_bot {fuel : Nat} {s : Str} (h : strFind s botTok = none) :
    findallAux fuel s = [] := by
  cases fuel with
  | zero => rfl
  | succ n => rw [findallAux_succ, h]

/-- C9: for an input `before ++ <OPEN> ++ {"name":"f","arguments":{"x":1}} ++
<CLOSE> ++ after` whose surrounding plain-text segments contain no opening
delimiter, one-shot extraction returns the trimmed before-text and exactly one
call named `f` with arguments `{"x": 1}`; the after-text appears nowhere in
the result. -/
theorem C9_single_shot_round_trip (before after : Str)
    (hb : containsTok before botTok = false)
    (ha : containsTok after botTok = false) :
    detect_and_parse (before ++ (botTok ++ (jsonF ++ (eotTok ++ after)))) =
      ⟨pyStrip before,
       [⟨0, some (Json.str "f".data), pyDumps (Json.obj [("x".data, Json.int 1)])⟩]⟩ := by
  have hfind : strFind (before ++ (botTok ++ (jsonF ++ (eotTok ++ after)))) botTok =
      some before.length :=
    strFind_append_boundary botTok_head (fun k h1 h2 => botTok_no_lt k h2 h1) hb
  have hfind2 : strFind (jsonF ++ (eotTok ++ after)) eotTok = some jsonF.length :=
    strFind_append_boundary eotTok_head (fun k h1 h2 => eotTok_no_lt k h2 h1) (by decide)
  have hshift : strFindFrom (before ++ (botTok ++ (jsonF ++ (eotTok ++ after)))) eotTok
      (before.length + botTok.length) =
      some (before.length + botTok.length + jsonF.length) := by
    have h1 := @strFindFrom_append_shift (before ++ botTok) _ _ eotTok_ne_nil _ hfind2
    rw [List.append_assoc, List.length_append] at h1
    exact h1
  have hslice : strSlice (before ++ (botTok ++ (jsonF ++ (eotTok ++ after))))
      (before.length + botTok.length) (before.length + botTok.length + jsonF.length) =
      jsonF := by
    unfold strSlice
    have h1 : before ++ (botTok ++ (jsonF ++ (eotTok ++ after))) =
        (((before ++ botTok) ++ jsonF) ++ (eotTok ++ after)) := by
      simp [List.append_assoc]
    rw [h1,
      show before.length + botTok.length + jsonF.length = ((before ++ botTok) ++ jsonF).length
        by simp [List.length_append, Nat.add_assoc],
      List.take_left,
      show before.length + botTok.length = (before ++ botTok).length
        by simp [List.length_append],
      List.drop_left]
  have hdrop : (before ++ (botTok ++ (jsonF ++ (eotTok ++ after)))).drop
      (before.length + botTok.length + jsonF.length + eotTok.length) = after := by
    have h1 : before ++ (botTok ++ (jsonF ++ (eotTok ++ after))) =
        ((((before ++ botTok) ++ jsonF) ++ eotTok) ++ after) := by
      simp [List.append_assoc]
    rw [h1,
      show before.length + botTok.length + jsonF.length + eotTok.length =
        ((((before ++ botTok) ++ jsonF) ++ eotTok)).length
        by simp [List.length_append, Nat.add_assoc],
      List.drop_left]
  have hreg : findallRegions (before ++ (botTok ++ (jsonF ++ (eotTok ++ after)))) =
      [jsonF] := by
    rw [findallRegions, findallAux_succ]
    simp only [hfind, hshift, hslice, hdrop]
    rw [findallAux_no_bot (containsTok_false_iff.mp ha)]
  have htake : (before ++ (botTok ++ (jsonF ++ (eotTok ++ after)))).take before.length =
      before := List.take_left before _
  unfold detect_and_parse
  simp only [hfind, hreg, htake]
  have hpr : processRegions [jsonF] [] =
      .ok [⟨(0 : Int), some (Json.str "f".data),
            pyDumps (Json.obj [("x".data, Json.int 1)])⟩] := by decide
  rw [hpr]

theorem C9_single_shot_round_trip_witness :
    containsTok "foo ".data botTok = false ∧
    containsTok " bar".data botTok = false ∧
    detect_and_parse ("foo ".data ++ (botTok ++ (jsonF ++ (eotTok ++ " bar".data)))) =
      ⟨pyStrip "foo ".data,
       [⟨0, some (Json.str "f".data), pyDumps (Json.obj [("x".data, Json.int 1)])⟩]⟩ :=
  ⟨by decide, by decide, C9_single_shot_round_trip _ _ (by decide) (by decide)⟩

/-! ## Session trace lemmas -/

lemma stepTrace_cons (s : Dots2State) (t : Str) (ts : List Str) :
    stepTrace s (t :: ts) =
      (s, (parse_streaming_increment s t).1, (parse_streaming_increment s t).2) ::
        stepTrace (parse_streaming_increment s t).2 ts := rfl

lemma endState_cons (s : Dots2State) (t : Str) (ts : List Str) :
    endState s (t :: ts) = endState (parse_streaming_increment s t).2 ts := rfl

lemma allItems_cons (e : TraceEntry) (tr : List TraceEntry) :
    allItems (e :: tr) = entryCalls e ++ allItems tr := List.flatMap_cons ..

lemma ncItems_cons (e : TraceEntry) (tr : List TraceEntry) :
    ncItems (e :: tr) =
      (if isCompletingEntry e then [] else entryCalls e) ++ ncItems tr := by
  by_cases h : isCompletingEntry e <;> simp [ncItems, List.filter_cons, h]

lemma compItems_cons (e : TraceEntry) (tr : List TraceEntry) :
    compItems (e :: tr) =
      (if isCompletingEntry e then entryCalls e else []) ++ compItems tr := by
  by_cases h : isCompletingEntry e <;> simp [compItems, List.filter_cons, h]

lemma itemsAt_append (i : Int) (x y : List ToolCallItem) :
    itemsAt i (x ++ y) = itemsAt i x ++ itemsAt i y := List.filter_append ..

lemma namedAt_append (i : Int) (x y : List ToolCallItem) :
    namedAt i (x ++ y) = namedAt i x ++ namedAt i y := List.filter_append ..

lemma paramsConcat_append (x y : List ToolCallItem) :
    paramsConcat (x ++ y) = paramsConcat x ++ paramsConcat y := by
  simp [paramsConcat]

lemma itemsAt_single (i : Int) (it : ToolCallItem) :
    itemsAt i [it] = if it.tool_index = i then [it] else [] := by
  by_cases h : it.tool_index = i <;> simp [itemsAt, List.filter_cons, h]

lemma namedAt_single_length (i : Int) (it : ToolCallItem) :
    (namedAt i [it]).length = if it.tool_index = i ∧ it.name.isSome then 1 else 0 := by
  by_cases h1 : it.tool_index = i <;> by_cases h2 : it.name.isSome <;>
    simp [namedAt, List.filter_cons, h1, h2]

lemma mem_allItems_of_mem_ncItems {it : ToolCallItem} {tr : List TraceEntry}
    (h : it ∈ ncItems tr) : it ∈ allItems tr := by
  induction tr with
  | nil => simp [ncItems] at h
  | cons e tr ih =>
    rw [ncItems_cons] at h
    rw [allItems_cons]
    rcases List.mem_append.mp h with h1 | h1
    · by_cases hc : isCompletingEntry e
      · simp [hc] at h1
      · simp only [hc, if_false, Bool.false_eq_true] at h1
        exact List.mem_append.mpr (Or.inl h1)
    · exact List.mem_append.mpr (Or.inr (ih h1))

lemma mem_allItems_of_mem_compItems {it : ToolCallItem} {tr : List TraceEntry}
    (h : it ∈ compItems tr) : it ∈ allItems tr := by
  induction tr with
  | nil => simp [compItems] at h
  | cons e tr ih =>
    rw [compItems_cons] at h
    rw [allItems_cons]
    rcases List.mem_append.mp h with h1 | h1
    · by_cases hc : isCompletingEntry e
      · simp only [hc, if_true] at h1
        exact List.mem_append.mpr (Or.inl h1)
      · simp [hc] at h1
    · exact List.mem_append.mpr (Or.inr (ih h1))

lemma getD_append_replicate {α : Type} (l : List α) (k i : Nat) (d : α) :
    (l ++ List.replicate k d).getD i d = l.getD i d := by
  rw [List.getD_eq_getElem?_getD, List.getD_eq_getElem?_getD]
  rcases Nat.lt_or_ge i l.length with h | h
  · rw [List.getElem?_append_left h]
  · rw [List.getElem?_append_right h]
    rcases Nat.lt_or_ge (i - l.length) k with h2 | h2
    · rw [List.getElem?_replicate, if_pos h2]
      rw [List.getElem?_eq_none (by omega : l.length ≤ i)]
      rfl
    · rw [List.getElem?_replicate, if_neg (by omega)]
      rw [List.getElem?_eq_none (by omega : l.length ≤ i)]

lemma getD_padTo {α : Type} (l : List α) (n i : Nat) (d : α) :
    (padTo l n d).getD i d = l.getD i d := getD_append_replicate l _ i d

lemma padTo_lt_length {α : Type} (l : List α) (n : Nat) (d : α) :
    n < (padTo l n d).length := by
  simp [padTo]
  omega

lemma getD_set_ne {α : Type} {l : List α} {n i : Nat} (h : i ≠ n) (v d : α) :
    (l.set n v).getD i d = l.getD i d := by
  rw [List.getD_eq_getElem?_getD, List.getD_eq_getElem?_getD,
    List.getElem?_set_ne (by omega)]

lemma getD_set_self {α : Type} {l : List α} {n : Nat} (h : n < l.length) (v d : α) :
    (l.set n v).getD n d = v := by
  rw [List.getD_eq_getElem?_getD, List.getElem?_set_self h]
  rfl

lemma isCompletingEntry_iff (e : TraceEntry) :
    isCompletingEntry e = true ↔
      e.2.2.current_tool_id = ctidNorm e.1.current_tool_id + 1 := by
  simp [isCompletingEntry]

lemma length_filter_le_one_of_pairwise_lt {l : List ToolCallItem} {i : Int}
    (h : List.Pairwise (· < ·) (l.map ToolCallItem.tool_index)) :
    (itemsAt i l).length ≤ 1 := by
  induction l with
  | nil => simp [itemsAt]
  | cons a l ih =>
    rw [List.map_cons, List.pairwise_cons] at h
    obtain ⟨h1, h2⟩ := h
    by_cases hi : a.tool_index = i
    · have hnil : itemsAt i l = [] := by
        apply List.filter_eq_nil_iff.mpr
        intro b hb
        have : a.tool_index < b.tool_index := h1 _ (List.mem_map_of_mem _ hb)
        simp only [beq_iff_eq]
        omega
      rw [show itemsAt i (a :: l) = a :: itemsAt i l from by
        simp [itemsAt, List.filter_cons, hi]]
      rw [hnil]
      simp
    · have : itemsAt i (a :: l) = itemsAt i l := by
        simp [itemsAt, List.filter_cons, hi]
      rw [this]
      exact ih h2

lemma pairwise_le_of_all_eq {l : List ToolCallItem} {N : Int}
    (h : ∀ it ∈ l, it.tool_index = N) :
    List.Pairwise (· ≤ ·) (l.map ToolCallItem.tool_index) := by
  induction l with
  | nil => simp
  | cons a l ih =>
    rw [List.map_cons, List.pairwise_cons]
    constructor
    · intro b hb
      obtain ⟨it, hit, hb2⟩ := List.mem_map.mp hb
      rw [h a (List.mem_cons_self a l), ← hb2, h it (List.mem_cons_of_mem _ hit)]
    · exact ih (fun it hit => h it (List.mem_cons_of_mem _ hit))

/-- The six-part invariant of an incremental session suffix. -/
def SessProp (s : Dots2State) (fs : List Str) : Prop :=
  (∀ it ∈ allItems (stepTrace s fs), ctidNorm s.current_tool_id ≤ it.tool_index)
  ∧ List.Pairwise (· ≤ ·) ((allItems (stepTrace s fs)).map ToolCallItem.tool_index)
  ∧ (∀ i : Int, (namedAt i (ncItems (stepTrace s fs))).length ≤ 1)
  ∧ (s.current_tool_name_sent = true → ¬s.current_tool_id = -1 →
      (namedAt s.current_tool_id (ncItems (stepTrace s fs))).length = 0)
  ∧ List.Pairwise (· < ·) ((compItems (stepTrace s fs)).map ToolCallItem.tool_index)
  ∧ (∀ i : Nat, (endState s fs).streamed_args_for_tool.getD i [] =
      s.streamed_args_for_tool.getD i [] ++
        paramsConcat (itemsAt (i : Int) (ncItems (stepTrace s fs))))

lemma SessProp_cons_silent {s s2 : Dots2State} {t : Str} {ts : List Str} {X : Str}
    (hout : parse_streaming_increment s t = (⟨X, []⟩, s2))
    (hid : s2.current_tool_id = s.current_tool_id)
    (hflag : s2.current_tool_name_sent = s.current_tool_name_sent)
    (hstr : s2.streamed_args_for_tool = s.streamed_args_for_tool)
    (IH : SessProp s2 ts) : SessProp s (t :: ts) := by
  obtain ⟨a, b, c, d, e, f⟩ := IH
  have hcomp : isCompletingEntry (s, (⟨X, []⟩ : StreamingParseResult), s2) = false := by
    simp only [isCompletingEntry, isCompletingEntry_iff, hid]
    simp [ctidNorm_ne_self_succ s.current_tool_id]
  unfold SessProp
  simp only [stepTrace_cons, endState_cons, hout, allItems_cons, ncItems_cons,
    compItems_cons, hcomp, Bool.false_eq_true, if_false, entryCalls, List.nil_append]
  rw [← hid, ← hflag, ← hstr]
  exact ⟨a, b, c, d, e, f⟩

lemma SessProp_cons_complete {s s2 : Dots2State} {t : Str} {ts : List Str}
    {r : StreamingParseResult} {nm : Option Json} {pg : Str}
    (hout : parse_streaming_increment s t = (r, s2))
    (hge : -1 ≤ s.current_tool_id)
    (hid : s2.current_tool_id = ctidNorm s.current_tool_id + 1)
    (hcalls : r.calls = [⟨ctidNorm s.current_tool_id, nm, pg⟩])
    (hstreamed : ∀ i : Nat, s2.streamed_args_for_tool.getD i [] =
      s.streamed_args_for_tool.getD i [])
    (IH : SessProp s2 ts) : SessProp s (t :: ts) := by
  obtain ⟨a, b, c, d, e, f⟩ := IH
  have hNnn : 0 ≤ ctidNorm s.current_tool_id := ctidNorm_nonneg _ hge
  have hnorm2 : ctidNorm s2.current_tool_id = ctidNorm s.current_tool_id + 1 := by
    rw [hid]
    unfold ctidNorm
    rw [if_neg (by omega)]
  have hcomp : isCompletingEntry (s, r, s2) = true := by
    rw [isCompletingEntry_iff]
    exact hid
  unfold SessProp
  simp only [stepTrace_cons, endState_cons, hout, allItems_cons, ncItems_cons,
    compItems_cons, hcomp, if_true, entryCalls, hcalls, List.nil_append]
  refine ⟨?_, ?_, ?_, ?_, ?_, ?_⟩
  · intro it hit
    rcases List.mem_append.mp hit with h1 | h1
    · rw [List.mem_singleton.mp h1]
    · have h2 := a it h1
      rw [hnorm2] at h2
      omega
  · rw [List.map_append, List.pairwise_append]
    refine ⟨by simp, b, ?_⟩
    intro x hx y hy
    have hx2 : x = ctidNorm s.current_tool_id := by simpa using hx
    obtain ⟨it, hit, hy2⟩ := List.mem_map.mp hy
    have h2 := a it hit
    rw [hnorm2] at h2
    omega
  · exact c
  · intro hf hc
    apply List.length_eq_zero.mpr
    apply List.filter_eq_nil_iff.mpr
    intro it hit
    have hmem := mem_allItems_of_mem_ncItems hit
    have h2 := a it hmem
    rw [hnorm2] at h2
    have hle := ctidNorm_le s.current_tool_id
    have hne : ¬ it.tool_index = s.current_tool_id := by omega
    simp [hne]
  · rw [List.map_append, List.pairwise_append]
    refine ⟨by simp, e, ?_⟩
    intro x hx y hy
    have hx2 : x = ctidNorm s.current_tool_id := by simpa using hx
    obtain ⟨it, hit, hy2⟩ := List.mem_map.mp hy
    have h2 := a it (mem_allItems_of_mem_compItems hit)
    rw [hnorm2] at h2
    omega
  · intro i
    rw [f i, hstreamed i]

lemma SessProp_cons_stream {s s2 : Dots2State} {t : Str} {ts : List Str}
    {r : StreamingParseResult}
    (hout : parse_streaming_increment s t = (r, s2))
    (hge : -1 ≤ s.current_tool_id)
    (hid : s2.current_tool_id = ctidNorm s.current_tool_id)
    (hflag2 : s2.current_tool_name_sent = true)
    (hidx : ∀ it ∈ r.calls, it.tool_index = ctidNorm s.current_tool_id)
    (hnamed : (namedAt (ctidNorm s.current_tool_id) r.calls).length ≤ 1)
    (hnamed0 : s.current_tool_name_sent = true → ¬s.current_tool_id = -1 →
      (namedAt (ctidNorm s.current_tool_id) r.calls).length = 0)
    (hstreamed : ∀ i : Nat, s2.streamed_args_for_tool.getD i [] =
      s.streamed_args_for_tool.getD i [] ++ paramsConcat (itemsAt (i : Int) r.calls))
    (IH : SessProp s2 ts) : SessProp s (t :: ts) := by
  obtain ⟨a, b, c, d, e, f⟩ := IH
  have hNnn : 0 ≤ ctidNorm s.current_tool_id := ctidNorm_nonneg _ hge
  have hnorm2 : ctidNorm s2.current_tool_id = ctidNorm s.current_tool_id := by
    rw [hid, ctidNorm_idem]
  have hcomp : isCompletingEntry (s, r, s2) = false := by
    simp only [isCompletingEntry, beq_eq_false_iff_ne, ne_eq, hid]
    omega
  have hnamed_ne : ∀ i : Int, ¬ i = ctidNorm s.current_tool_id →
      (namedAt i r.calls).length = 0 := by
    intro i hi
    apply List.length_eq_zero.mpr
    apply List.filter_eq_nil_iff.mpr
    intro it hit
    have h1 := hidx it hit
    have h2 : ¬ (ctidNorm s.current_tool_id = i) := fun h => hi h.symm
    simp [h1, h2]
  unfold SessProp
  simp only [stepTrace_cons, endState_cons, hout, allItems_cons, ncItems_cons,
    compItems_cons, hcomp, Bool.false_eq_true, if_false, entryCalls, List.nil_append]
  refine ⟨?_, ?_, ?_, ?_, ?_, ?_⟩
  · intro it hit
    rcases List.mem_append.mp hit with h1 | h1
    · rw [hidx it h1]
    · have h2 := a it h1
      rw [hnorm2] at h2
      exact h2
  · rw [List.map_append, List.pairwise_append]
    refine ⟨pairwise_le_of_all_eq hidx, b, ?_⟩
    intro x hx y hy
    obtain ⟨it, hit, hx2⟩ := List.mem_map.mp hx
    obtain ⟨it2, hit2, hy2⟩ := List.mem_map.mp hy
    have h2 := a it2 hit2
    rw [hnorm2] at h2
    rw [← hx2, hidx it hit]
    omega
  · intro i
    rw [namedAt_append, List.length_append]
    by_cases hi : i = ctidNorm s.current_tool_id
    · subst hi
      have hrest : (namedAt (ctidNorm s.current_tool_id) (ncItems (stepTrace s2 ts))).length = 0 := by
        have h1 := d hflag2
        rw [hid] at h1
        exact h1 (by omega)
      omega
    · rw [hnamed_ne i hi]
      have := c i
      omega
  · intro hf hc
    rw [namedAt_append, List.length_append]
    have hstep : (namedAt s.current_tool_id r.calls).length = 0 := by
      have : ctidNorm s.current_tool_id = s.current_tool_id := by
        unfold ctidNorm
        rw [if_neg hc]
      rw [← this]
      exact hnamed0 hf hc
    have hrest : (namedAt s.current_tool_id (ncItems (stepTrace s2 ts))).length = 0 := by
      have hN : ctidNorm s.current_tool_id = s.current_tool_id := by
        unfold ctidNorm
        rw [if_neg hc]
      have h1 := d hflag2
      rw [hid, hN] at h1
      exact h1 hc
    omega
  · exact e
  · intro i
    rw [f i, hstreamed i, itemsAt_append, paramsConcat_append, List.append_assoc]

lemma completeOut_streamed_getD (s : Dots2State) (ct : Str) (q : Nat)
    (nm : Option Json) (ag : Json)
    (hinit : s.current_tool_id = -1 → s.streamed_args_for_tool = []) :
    ∀ i : Nat, (completeOut s ct q nm ag).2.streamed_args_for_tool.getD i [] =
      s.streamed_args_for_tool.getD i [] := by
  intro i
  rw [completeOut_streamed, getD_padTo]
  by_cases hc : s.current_tool_id = -1
  · rw [hinit hc]
    unfold streamedBase
    rw [if_pos hc]
    cases i <;> simp [List.getD]
  · unfold streamedBase
    rw [if_neg hc]

lemma streamingOut_streamed_getD (s : Dots2State) (nm : Option Json) (ag : Json)
    (hge : -1 ≤ s.current_tool_id)
    (hinit : s.current_tool_id = -1 → s.streamed_args_for_tool = []) :
    ∀ i : Nat, (streamingOut s nm ag).2.streamed_args_for_tool.getD i [] =
      s.streamed_args_for_tool.getD i [] ++
        paramsConcat (itemsAt (i : Int) (streamingOut s nm ag).1.calls) := by
  intro i
  have hNnn : 0 ≤ ctidNorm s.current_tool_id := ctidNorm_nonneg _ hge
  have hbase : (streamedBase s).getD (ctidNorm s.current_tool_id).toNat [] =
      s.streamed_args_for_tool.getD (ctidNorm s.current_tool_id).toNat [] := by
    by_cases hc : s.current_tool_id = -1
    · rw [hinit hc]
      unfold streamedBase
      rw [if_pos hc]
      have h0 : ctidNorm s.current_tool_id = 0 := by
        unfold ctidNorm
        rw [if_pos hc]
      rw [h0]
      rfl
    · unfold streamedBase
      rw [if_neg hc]
  have hbaseAll : ∀ j : Nat, (streamedBase s).getD j [] =
      s.streamed_args_for_tool.getD j [] := by
    intro j
    by_cases hc : s.current_tool_id = -1
    · rw [hinit hc]
      unfold streamedBase
      rw [if_pos hc]
      cases j <;> simp [List.getD]
    · unfold streamedBase
      rw [if_neg hc]
  have hconcatA : paramsConcat (itemsAt (i : Int)
      (if flagBase s then [] else [⟨ctidNorm s.current_tool_id, nm, []⟩])) = [] := by
    by_cases hF : flagBase s = true
    · rw [if_pos hF]
      simp [itemsAt, paramsConcat]
    · rw [if_neg hF, itemsAt_single]
      split <;> simp [paramsConcat]
  rw [streamingOut_streamed, streamingOut_calls, itemsAt_append, paramsConcat_append,
    hconcatA]
  simp only [List.nil_append]
  by_cases hD : (streamDiff s ag).isEmpty = true
  · rw [if_pos hD, if_pos hD]
    rw [show itemsAt (i : Int) ([] : List ToolCallItem) = [] from rfl]
    rw [show paramsConcat ([] : List ToolCallItem) = [] from rfl, List.append_nil,
      getD_padTo]
    exact hbaseAll i
  · rw [if_neg hD, if_neg hD, itemsAt_single]
    by_cases hi : ((⟨ctidNorm s.current_tool_id, none, streamDiff s ag⟩ :
        ToolCallItem).tool_index = (i : Int))
    · rw [if_pos hi]
      have hi2 : ctidNorm s.current_tool_id = (i : Int) := hi
      have hiN : i = (ctidNorm s.current_tool_id).toNat := by omega
      subst hiN
      rw [getD_set_self (padTo_lt_length _ _ _), getD_padTo, hbase]
      simp [paramsConcat]
    · rw [if_neg hi]
      have hiN : i ≠ (ctidNorm s.current_tool_id).toNat := by
        intro h
        apply hi
        show ctidNorm s.current_tool_id = (i : Int)
        omega
      rw [getD_set_ne hiN, getD_padTo]
      rw [show paramsConcat ([] : List ToolCallItem) = [] from rfl, List.append_nil]
      exact hbaseAll i

lemma sessionInv : ∀ (fs : List Str) (s : Dots2State),
    -1 ≤ s.current_tool_id →
    (s.current_tool_id = -1 → s.streamed_args_for_tool = []) →
    SessProp s fs := by
  intro fs
  induction fs with
  | nil =>
    intro s hge hinit
    unfold SessProp
    simp [stepTrace, allItems, ncItems, compItems, endState, namedAt, itemsAt, paramsConcat]
  | cons t ts ih =>
    intro s hge hinit
    rcases step_cases s t with ⟨hnb, hout⟩ | hout | hout |
      ⟨p, q, kvs, hf4, he4, hl4, hout⟩ | ⟨nm, ag, hout⟩
    · exact SessProp_cons_silent hout rfl rfl rfl (ih _ hge hinit)
    · exact SessProp_cons_silent hout rfl rfl rfl (ih _ hge hinit)
    · exact SessProp_cons_silent hout rfl rfl rfl (ih _ hge hinit)
    · -- completing step
      have hNnn : 0 ≤ ctidNorm s.current_tool_id := ctidNorm_nonneg _ hge
      have hproj : ({ s with buffer := s.buffer ++ t } : Dots2State).current_tool_id =
          s.current_tool_id := rfl
      have hge2 : -1 ≤ (completeOut { s with buffer := s.buffer ++ t }
          (s.buffer ++ t) q (pyGet kvs keyName)
          (pyGetD kvs keyArgs (.obj []))).2.current_tool_id := by
        rw [completeOut_ctid, hproj]
        omega
      have hinit2 : (completeOut { s with buffer := s.buffer ++ t }
            (s.buffer ++ t) q (pyGet kvs keyName)
            (pyGetD kvs keyArgs (.obj []))).2.current_tool_id = -1 →
          (completeOut { s with buffer := s.buffer ++ t }
            (s.buffer ++ t) q (pyGet kvs keyName)
            (pyGetD kvs keyArgs (.obj []))).2.streamed_args_for_tool = [] := by
        rw [completeOut_ctid, hproj]
        intro h
        omega
      exact SessProp_cons_complete hout hge
        (completeOut_ctid _ (s.buffer ++ t) q (pyGet kvs keyName)
          (pyGetD kvs keyArgs (.obj [])))
        (completeOut_calls _ (s.buffer ++ t) q (pyGet kvs keyName)
          (pyGetD kvs keyArgs (.obj [])))
        (completeOut_streamed_getD { s with buffer := s.buffer ++ t }
          (s.buffer ++ t) q (pyGet kvs keyName)
          (pyGetD kvs keyArgs (.obj [])) hinit)
        (ih _ hge2 hinit2)
    · -- streaming step
      have hNnn : 0 ≤ ctidNorm s.current_tool_id := ctidNorm_nonneg _ hge
      have hproj : ({ s with buffer := s.buffer ++ t } : Dots2State).current_tool_id =
          s.current_tool_id := rfl
      have hge2 : -1 ≤ (streamingOut { s with buffer := s.buffer ++ t }
          nm ag).2.current_tool_id := by
        rw [streamingOut_ctid, hproj]
        omega
      have hinit2 : (streamingOut { s with buffer := s.buffer ++ t }
            nm ag).2.current_tool_id = -1 →
          (streamingOut { s with buffer := s.buffer ++ t }
            nm ag).2.streamed_args_for_tool = [] := by
        rw [streamingOut_ctid, hproj]
        intro h
        omega
      have hidx : ∀ it ∈ (streamingOut { s with buffer := s.buffer ++ t } nm ag).1.calls,
          it.tool_index = ctidNorm s.current_tool_id := by
        intro it hit
        rw [streamingOut_calls] at hit
        rcases List.mem_append.mp hit with h1 | h1
        · by_cases hF : flagBase { s with buffer := s.buffer ++ t } = true
          · rw [if_pos hF] at h1
            simp at h1
          · rw [if_neg hF] at h1
            rw [List.mem_singleton.mp h1]
        · by_cases hD : (streamDiff { s with buffer := s.buffer ++ t } ag).isEmpty = true
          · rw [if_pos hD] at h1
            simp at h1
          · rw [if_neg hD] at h1
            rw [List.mem_singleton.mp h1]
      have hnamed : (namedAt (ctidNorm s.current_tool_id)
          (streamingOut { s with buffer := s.buffer ++ t } nm ag).1.calls).length ≤ 1 := by
        rw [streamingOut_calls, namedAt_append, List.length_append]
        have hA : (namedAt (ctidNorm s.current_tool_id)
            (if flagBase { s with buffer := s.buffer ++ t } then []
             else [⟨ctidNorm ({ s with buffer := s.buffer ++ t } :
               Dots2State).current_tool_id, nm, []⟩])).length ≤ 1 := by
          by_cases hF : flagBase { s with buffer := s.buffer ++ t } = true
          · rw [if_pos hF]
            simp [namedAt]
          · rw [if_neg hF, namedAt_single_length]
            split <;> omega
        have hB : (namedAt (ctidNorm s.current_tool_id)
            (if (streamDiff { s with buffer := s.buffer ++ t } ag).isEmpty then []
             else [⟨ctidNorm ({ s with buffer := s.buffer ++ t } :
               Dots2State).current_tool_id, none,
               streamDiff { s with buffer := s.buffer ++ t } ag⟩])).length = 0 := by
          by_cases hD : (streamDiff { s with buffer := s.buffer ++ t } ag).isEmpty = true
          · rw [if_pos hD]
            simp [namedAt]
          · rw [if_neg hD, namedAt_single_length]
            simp
        omega
      have hnamed0 : s.current_tool_name_sent = true → ¬s.current_tool_id = -1 →
          (namedAt (ctidNorm s.current_tool_id)
            (streamingOut { s with buffer := s.buffer ++ t } nm ag).1.calls).length = 0 := by
        intro hf hc
        have hF : flagBase { s with buffer := s.buffer ++ t } = true := by
          unfold flagBase
          simp only [hc, if_false]
          exact hf
        rw [streamingOut_calls, namedAt_append, List.length_append, if_pos hF]
        have hB : (namedAt (ctidNorm s.current_tool_id)
            (if (streamDiff { s with buffer := s.buffer ++ t } ag).isEmpty then []
             else [⟨ctidNorm ({ s with buffer := s.buffer ++ t } :
               Dots2State).current_tool_id, none,
               streamDiff { s with buffer := s.buffer ++ t } ag⟩])).length = 0 := by
          by_cases hD : (streamDiff { s with buffer := s.buffer ++ t } ag).isEmpty = true
          · rw [if_pos hD]
            simp [namedAt]
          · rw [if_neg hD, namedAt_single_length]
            simp
        rw [hB]
        simp [namedAt]
      exact SessProp_cons_stream hout hge
        (streamingOut_ctid _ nm ag) (streamingOut_flag _ nm ag)
        hidx hnamed hnamed0
        (streamingOut_streamed_getD { s with buffer := s.buffer ++ t } nm ag hge hinit)
        (ih _ hge2 hinit2)

lemma ctid_step_relation : ∀ (fs : List Str) (s : Dots2State), ∀ e ∈ stepTrace s fs,
    e.2.2.current_tool_id = e.1.current_tool_id
    ∨ (e.1.current_tool_id = -1 ∧ e.2.2.current_tool_id = 0)
    ∨ e.2.2.current_tool_id = ctidNorm e.1.current_tool_id + 1 := by
  intro fs
  induction fs with
  | nil =>
    intro s e he
    simp [stepTrace] at he
  | cons t ts ih =>
    intro s e he
    rw [stepTrace_cons] at he
    rcases List.mem_cons.mp he with he1 | he1
    · subst he1
      rcases step_cases s t with ⟨_, hout⟩ | hout | hout |
        ⟨p, q, kvs, hf4, he4, hl4, hout⟩ | ⟨nm, ag, hout⟩
      · rw [hout]
        left
        rfl
      · rw [hout]
        left
        rfl
      · rw [hout]
        left
        rfl
      · rw [hout]
        right
        right
        rfl
      · rw [hout]
        by_cases hc : s.current_tool_id = -1
        · right
          left
          refine ⟨hc, ?_⟩
          show ctidNorm s.current_tool_id = 0
          unfold ctidNorm
          rw [if_pos hc]
        · left
          show ctidNorm s.current_tool_id = s.current_tool_id
          unfold ctidNorm
          rw [if_neg hc]
    · exact ih _ e he1

/-- C6 as stated is false: on the session's first completed call the current
tool index jumps from -1 to 1 (it is first initialized to 0, then
incremented), an increase of two. -/
theorem C6_index_monotonic_counterexample :
    initState.current_tool_id = -1 ∧
    (parse_streaming_increment initState callF).1.calls ≠ [] ∧
    (parse_streaming_increment initState callF).2.current_tool_id = 1 ∧
    (parse_streaming_increment initState callF).2.current_tool_id ≠
      initState.current_tool_id + 1 := by decide

/-- C6 amended: emitted tool indices are monotonically non-decreasing across
a session, and each step either leaves the current tool index unchanged,
lazily initializes it from -1 to 0 (streaming path, no delimiter consumed),
or — exactly when a closing delimiter is consumed — sets it to one more than
its (possibly just-initialized) value, so the net increase is one except on
the session's first completed call, where the index jumps from -1 to 1. -/
theorem C6_index_monotonic_amended (frags : List Str) :
    List.Pairwise (· ≤ ·)
      ((allItems (stepTrace initState frags)).map ToolCallItem.tool_index)
    ∧ ∀ e ∈ stepTrace initState frags,
        e.2.2.current_tool_id = e.1.current_tool_id
        ∨ (e.1.current_tool_id = -1 ∧ e.2.2.current_tool_id = 0)
        ∨ e.2.2.current_tool_id = ctidNorm e.1.current_tool_id + 1 := by
  refine ⟨?_, ctid_step_relation frags initState⟩
  exact (sessionInv frags initState (le_refl _) (fun _ => rfl)).2.1

/-- C2 as stated is false: when a call's JSON completes before its closing
delimiter, the name is streamed once, and then the completing emission for
the same tool index carries the name again — two named items at index 0. -/
theorem C2_name_once_counterexample :
    (namedAt 0 (allItems (stepTrace initState [botTok, jsonF, eotTok]))).length = 2 := by
  decide

/-- C2 amended: per tool index, at most one item emitted by non-completing
(streamed) steps carries a name, and at most one item is emitted by a
completing step (which always carries the parsed name again); hence at most
two emitted items per index carry a name. -/
theorem C2_name_once_amended (frags : List Str) (i : Int) :
    (namedAt i (ncItems (stepTrace initState frags))).length ≤ 1 ∧
    (itemsAt i (compItems (stepTrace initState frags))).length ≤ 1 := by
  have h := sessionInv frags initState (le_refl _) (fun _ => rfl)
  exact ⟨h.2.2.1 i, length_filter_le_one_of_pairwise_lt h.2.2.2.2.1⟩

/-- C1 as stated is false: when an argument increment is streamed before the
closing delimiter arrives, the completing emission repeats the full
serialized arguments, so the concatenation of all argument-text fragments
for the index holds the arguments twice. -/
theorem C1_diff_accumulation_counterexample :
    paramsConcat (itemsAt 0 (allItems (stepTrace initState [botTok, jsonF, eotTok]))) =
      pyDumps (Json.obj [("x".data, Json.int 1)]) ++
        pyDumps (Json.obj [("x".data, Json.int 1)]) ∧
    (compItems (stepTrace initState [botTok, jsonF, eotTok])).map
        ToolCallItem.parameters =
      [pyDumps (Json.obj [("x".data, Json.int 1)])] ∧
    pyDumps (Json.obj [("x".data, Json.int 1)]) ++
        pyDumps (Json.obj [("x".data, Json.int 1)]) ≠
      pyDumps (Json.obj [("x".data, Json.int 1)]) := by decide

/-- C1 amended: concatenating the argument-text fragments emitted by
non-completing (streamed) steps for a tool index equals exactly the
detector's accumulated streamed-arguments record for that index; the
completing emission instead carries the entire final serialized arguments
string (see the C4 theorem), so including it in the concatenation repeats
whatever was already streamed. -/
theorem C1_diff_accumulation_amended (frags : List Str) (i : Nat) :
    (endState initState frags).streamed_args_for_tool.getD i [] =
      paramsConcat (itemsAt (i : Int) (ncItems (stepTrace initState frags))) := by
  have h := (sessionInv frags initState (le_refl _) (fun _ => rfl)).2.2.2.2.2 i
  have h3 : (initState.streamed_args_for_tool).getD i [] = [] := by
    cases i <;> rfl
  rw [h, h3, List.nil_append]

/-! ## C3: chunk-size invariance analysis -/

lemma bot_lt_unique : ∀ k, k < botTok.length → botTok[k]? = some '<' → k = 0 := by decide

lemma botTok_one : botTok[1]? = some 'd' := by decide

lemma eotTok_one : eotTok[1]? = some '/' := by decide

/-- In `bot ++ J ++ eot` with no closing token inside `J`, the closing token
occurs only at the very end. -/
lemma eot_occ_unique {J : Str} (hJe : containsTok J eotTok = false) :
    ∀ j, matchAt (botTok ++ (J ++ eotTok)) eotTok j = true →
      j = botTok.length + J.length := by
  intro j hj
  have hT : botTok ++ (J ++ eotTok) = (botTok ++ J) ++ (eotTok ++ []) := by
    simp [List.append_assoc]
  rcases Nat.lt_or_ge j (botTok ++ J).length with hlt | hge
  · exfalso
    rw [hT] at hj
    have hin := matchAt_append_boundary eotTok_head
      (fun k h1 h2 => eotTok_no_lt k h2 h1) hj hlt
    rcases Nat.lt_or_ge j botTok.length with hj20 | hj20
    · have hc0 := matchAt_getElem hin 0 (by decide)
      rw [Nat.add_zero, List.getElem?_append_left hj20, eotTok_head] at hc0
      have hj0 : j = 0 := bot_lt_unique j hj20 hc0
      subst hj0
      have hc1 := matchAt_getElem hin 1 (by decide)
      rw [Nat.zero_add,
        List.getElem?_append_left (by decide : (1 : Nat) < botTok.length),
        botTok_one, eotTok_one] at hc1
      exact absurd hc1 (by decide)
    · obtain ⟨d, hd⟩ : ∃ d, j = botTok.length + d := ⟨j - botTok.length, by omega⟩
      subst hd
      rw [matchAt_append_right] at hin
      have h2 := containsTok_eq_true_of hin
      rw [hJe] at h2
      exact absurd h2 (by simp)
  · have hfit := matchAt_le_length eotTok_ne_nil hj
    have h1 : (botTok ++ (J ++ eotTok)).length =
        botTok.length + (J.length + eotTok.length) := by simp
    rw [List.length_append] at hge
    omega

/-- No closing token occurs in a proper prefix of `bot ++ J ++ eot`. -/
lemma prefix_no_eot {J : Str} (hJe : containsTok J eotTok = false)
    {m : Nat} (hm : m < (botTok ++ (J ++ eotTok)).length) :
    strFind ((botTok ++ (J ++ eotTok)).take m) eotTok = none := by
  apply strFind_eq_none_of
  intro k
  by_contra hc
  have hk := Bool.of_not_eq_false hc
  obtain ⟨h1, h2⟩ := matchAt_take eotTok_ne_nil hk
  have h3 := eot_occ_unique hJe k h1
  have hlen : (botTok ++ (J ++ eotTok)).length =
      botTok.length + (J.length + eotTok.length) := by simp
  omega

lemma prefix_find_bot {X : Str} {m : Nat} (hm : botTok.length ≤ m) :
    strFind ((botTok ++ X).take m) botTok = some 0 := by
  apply strFind_eq_some_of botTok_ne_nil
  · exact matchAt_of_take (matchAt_start botTok X) (by omega)
  · intro k hk
    exact absurd hk (Nat.not_lt_zero k)

lemma find_T_bot (X : Str) : strFind (botTok ++ X) botTok = some 0 := by
  apply strFind_eq_some_of botTok_ne_nil (matchAt_start botTok X)
  intro k hk
  exact absurd hk (Nat.not_lt_zero k)

lemma matchAt_T_eot (J : Str) :
    matchAt (botTok ++ (J ++ eotTok)) eotTok (botTok.length + J.length) = true := by
  rw [matchAt_iff]
  have hT : botTok ++ (J ++ eotTok) = (botTok ++ J) ++ eotTok :=
    (List.append_assoc _ _ _).symm
  rw [hT, show botTok.length + J.length = (botTok ++ J).length from
    (List.length_append _ _).symm, List.drop_left]
  exact List.take_length eotTok

lemma find_T_eot {J : Str} (hJe : containsTok J eotTok = false) :
    strFind (botTok ++ (J ++ eotTok)) eotTok = some (botTok.length + J.length) := by
  apply strFind_eq_some_of eotTok_ne_nil (matchAt_T_eot J)
  intro k hk
  by_contra hc
  have hkm := Bool.of_not_eq_false hc
  have := eot_occ_unique hJe k hkm
  omega

lemma findFrom_T_eot {J : Str} (hJe : containsTok J eotTok = false) :
    strFindFrom (botTok ++ (J ++ eotTok)) eotTok botTok.length =
      some (botTok.length + J.length) := by
  apply strFindFrom_eq_some_of eotTok_ne_nil (matchAt_T_eot J) (by omega)
  intro k _ hk
  by_contra hc
  have hkm := Bool.of_not_eq_false hc
  have := eot_occ_unique hJe k hkm
  omega

lemma slice_T_J (J : Str) :
    strSlice (botTok ++ (J ++ eotTok)) botTok.length (botTok.length + J.length) = J := by
  unfold strSlice
  have hT : botTok ++ (J ++ eotTok) = (botTok ++ J) ++ eotTok :=
    (List.append_assoc _ _ _).symm
  rw [hT, show botTok.length + J.length = (botTok ++ J).length from
    (List.length_append _ _).symm, List.take_left]
  exact List.drop_left _ _

lemma drop_T_end (J : Str) :
    (botTok ++ (J ++ eotTok)).drop (botTok.length + J.length + eotTok.length) = [] := by
  apply List.drop_eq_nil_of_le
  simp
  omega

lemma strStarts_length_le {big small : Str} (h : strStarts big small = true) :
    small.length ≤ big.length := by
  simp only [strStarts, beq_iff_eq] at h
  have := congrArg List.length h
  simp [List.length_take] at this
  omega

lemma step_empty_empty {s : Dots2State} (hb : s.buffer = []) :
    parse_streaming_increment s [] = (⟨[], []⟩, s) := by
  have h : containsTok (s.buffer ++ []) botTok = false := by
    rw [hb]
    decide
  rw [step_no_bot h]
  have h2 : removeTok [] eotTok = [] := by decide
  rw [h2]
  rcases s with ⟨b, x1, x2, x3, x4, x5⟩
  simp only at hb
  subst hb
  rfl

lemma endState_nil_frags : ∀ (fs : List Str), (∀ x ∈ fs, x = []) →
    ∀ {s : Dots2State}, s.buffer = [] →
      endState s fs = s ∧ allItems (stepTrace s fs) = [] := by
  intro fs
  induction fs with
  | nil =>
    intro _ s _
    exact ⟨rfl, rfl⟩
  | cons x fs ih =>
    intro h s hb
    have hx : x = [] := h x (List.mem_cons_self x fs)
    subst hx
    have hstep := step_empty_empty hb
    have hrest := ih (fun y hy => h y (List.mem_cons_of_mem _ hy)) hb
    constructor
    · rw [endState_cons]
      simp only [hstep]
      exact hrest.1
    · rw [stepTrace_cons]
      simp only [hstep]
      rw [allItems_cons]
      simp only [entryCalls]
      rw [hrest.2]
      rfl


lemma set_zero_of_length_one {α : Type} {l : List α} (h : l.length = 1) (v : α) :
    l.set 0 v = [v] := by
  cases l with
  | nil => simp at h
  | cons a l2 =>
    cases l2 with
    | nil => rfl
    | cons b l3 => simp at h

lemma strFindFrom_eq_none_of {hay pat : Str} {start : Nat}
    (hall : ∀ k, start ≤ k → matchAt hay pat k = false) :
    strFindFrom hay pat start = none := by
  cases h : strFindFrom hay pat start with
  | none => rfl
  | some j =>
    obtain ⟨h1, h2, _⟩ := strFindFrom_eq_some_elim h
    rw [hall j h1] at h2
    exact absurd h2 (by simp)

lemma completeOut_prev (s : Dots2State) (ct : Str) (q : Nat) (nm : Option Json)
    (ag : Json) :
    (completeOut s ct q nm ag).2.prev_tool_call_arr =
      (padTo (prevBase s) (ctidNorm s.current_tool_id).toNat (Json.obj [])).set
        (ctidNorm s.current_tool_id).toNat
        (Json.obj [(keyName, optJson nm), (keyArgs, ag)]) := rfl

lemma completeOut_buffer (s : Dots2State) (ct : Str) (q : Nat) (nm : Option Json)
    (ag : Json) :
    (completeOut s ct q nm ag).2.buffer = ct.drop (q + eotTok.length) := rfl

lemma streamingOut_prev_length (s : Dots2State) (nm : Option Json) (ag : Json) :
    (streamingOut s nm ag).2.prev_tool_call_arr.length =
      (padTo (prevBase s) (ctidNorm s.current_tool_id).toNat (Json.obj [])).length := by
  unfold streamingOut
  by_cases hF : flagBase s = true <;>
    by_cases hD : ((if strStarts (paramsOf ag) s.last_arguments then
        (paramsOf ag).drop s.last_arguments.length
      else paramsOf ag)).isEmpty = true <;>
    simp [hF, hD, List.length_set]

/-- The core induction for chunk-size invariance: once part of the opening
delimiter is buffered (or the first fragment carries it whole), the session
consuming exactly `bot ++ J ++ eot` ends with the parsed call recorded, the
tool index at 1, and the completing item among the emitted items, however the
remaining text is split into fragments. -/
lemma C3_aux {J : Str} {kvs : List (Str × Json)}
    (hJ : pyLoads (pyStrip J) = some (.obj kvs))
    (hJe : containsTok J eotTok = false) :
    ∀ (fs : List Str) (s : Dots2State) (m : Nat),
      s.buffer = (botTok ++ (J ++ eotTok)).take m →
      (botTok.length ≤ m ∨ (m = 0 ∧ ∃ g gs, fs = g :: gs ∧ botTok.length ≤ g.length)) →
      m < (botTok ++ (J ++ eotTok)).length →
      ((s.current_tool_id = -1 ∧ s.prev_tool_call_arr = []) ∨
        (s.current_tool_id = 0 ∧ s.prev_tool_call_arr.length = 1)) →
      s.buffer ++ fs.flatten = botTok ++ (J ++ eotTok) →
      ((endState s fs).prev_tool_call_arr =
          [Json.obj [(keyName, optJson (pyGet kvs keyName)),
                     (keyArgs, pyGetD kvs keyArgs (.obj []))]] ∧
       (endState s fs).current_tool_id = 1 ∧
       (⟨0, pyGet kvs keyName, paramsOf (pyGetD kvs keyArgs (.obj []))⟩ : ToolCallItem) ∈
         allItems (stepTrace s fs)) := by
  intro fs
  induction fs with
  | nil =>
    intro s m hbuf hstart hmlt hinv hcat
    exfalso
    rw [List.flatten_nil, List.append_nil] at hcat
    have h2 : (botTok ++ (J ++ eotTok)).take m = botTok ++ (J ++ eotTok) := by
      rw [← hbuf]
      exact hcat
    have h3 := congrArg List.length h2
    rw [List.length_take] at h3
    omega
  | cons f fs ih =>
    intro s m hbuf hstart hmlt hinv hcat
    have hbuflen : s.buffer.length = m := by
      rw [hbuf, List.length_take]
      omega
    have hctP : (s.buffer ++ f) ++ fs.flatten = botTok ++ (J ++ eotTok) := by
      rw [List.append_assoc]
      simpa using hcat
    have hct : (botTok ++ (J ++ eotTok)).take (s.buffer ++ f).length = s.buffer ++ f := by
      rw [← hctP]
      exact List.take_left _ _
    have hm'ge : botTok.length ≤ (s.buffer ++ f).length := by
      rw [List.length_append, hbuflen]
      rcases hstart with h | ⟨hm0, g, gs, hgs, hg⟩
      · omega
      · injection hgs with h1 h2
        subst h1
        omega
    rcases Nat.lt_or_ge (s.buffer ++ f).length (botTok ++ (J ++ eotTok)).length with
      hlt | hge2
    · -- non-final step: opening token present, closing token not yet complete
      have hbot : strFind (s.buffer ++ f) botTok = some 0 := by
        rw [← hct]
        exact prefix_find_bot hm'ge
      have heot : strFind (s.buffer ++ f) eotTok = none := by
        rw [← hct]
        exact prefix_no_eot hJe hlt
      have heotAll : ∀ k, matchAt (s.buffer ++ f) eotTok k = false :=
        fun k => strFindFrom_eq_none_elim eotTok_ne_nil heot k (Nat.zero_le k)
      rcases step_cases s f with ⟨hnb, hout⟩ | hout | hout |
        ⟨p, q, kvs2, hf4, he4, hl4, hout⟩ | ⟨nm2, ag2, hout⟩
      · rw [containsTok_true_of_find hbot] at hnb
        exact absurd hnb (by simp)
      · -- quiet step
        obtain ⟨h1, h2, h3⟩ := ih { s with buffer := s.buffer ++ f }
          (s.buffer ++ f).length hct.symm (Or.inl hm'ge) hlt hinv hctP
        refine ⟨?_, ?_, ?_⟩
        · rw [endState_cons]
          simp only [hout]
          exact h1
        · rw [endState_cons]
          simp only [hout]
          exact h2
        · rw [stepTrace_cons]
          simp only [hout]
          rw [allItems_cons]
          exact List.mem_append.mpr (Or.inr h3)
      · -- degraded error step
        obtain ⟨h1, h2, h3⟩ := ih { s with buffer := s.buffer ++ f }
          (s.buffer ++ f).length hct.symm (Or.inl hm'ge) hlt hinv hctP
        refine ⟨?_, ?_, ?_⟩
        · rw [endState_cons]
          simp only [hout]
          exact h1
        · rw [endState_cons]
          simp only [hout]
          exact h2
        · rw [stepTrace_cons]
          simp only [hout]
          rw [allItems_cons]
          exact List.mem_append.mpr (Or.inr h3)
      · -- a completing step is impossible: no closing token yet
        have hnone : strFindFrom (s.buffer ++ f) eotTok p = none :=
          strFindFrom_eq_none_of (fun k _ => heotAll k)
        rw [hnone] at he4
        exact absurd he4 (by simp)
      · -- streaming step: buffer kept, index moves to 0, one snapshot slot
        have hZ : ctidNorm s.current_tool_id = 0 := by
          rcases hinv with ⟨h1, _⟩ | ⟨h1, _⟩ <;> simp [ctidNorm, h1]
        have hcn : (ctidNorm ({ s with buffer := s.buffer ++ f } :
            Dots2State).current_tool_id).toNat = 0 := by
          rw [show ctidNorm ({ s with buffer := s.buffer ++ f } :
            Dots2State).current_tool_id = ctidNorm s.current_tool_id from rfl, hZ]
          rfl
        have hbuf2 : (streamingOut { s with buffer := s.buffer ++ f } nm2 ag2).2.buffer =
            s.buffer ++ f := streamingOut_buffer _ _ _
        have hctid2 : (streamingOut { s with buffer := s.buffer ++ f }
            nm2 ag2).2.current_tool_id = 0 := by
          rw [streamingOut_ctid]
          exact hZ
        have hprev2 : (streamingOut { s with buffer := s.buffer ++ f }
            nm2 ag2).2.prev_tool_call_arr.length = 1 := by
          rw [streamingOut_prev_length, hcn]
          rcases hinv with ⟨h1, h2⟩ | ⟨h1, h2⟩
          · rw [show prevBase { s with buffer := s.buffer ++ f } = ([] : List Json)
              from by simp [prevBase, h1]]
            rfl
          · rw [show prevBase { s with buffer := s.buffer ++ f } = s.prev_tool_call_arr
              from by simp [prevBase, h1]]
            simp [padTo, h2]
        obtain ⟨h1, h2, h3⟩ := ih
          (streamingOut { s with buffer := s.buffer ++ f } nm2 ag2).2
          (s.buffer ++ f).length (by rw [hbuf2]; exact hct.symm) (Or.inl hm'ge) hlt
          (Or.inr ⟨hctid2, hprev2⟩) (by rw [hbuf2]; exact hctP)
        refine ⟨?_, ?_, ?_⟩
        · rw [endState_cons]
          simp only [hout]
          exact h1
        · rw [endState_cons]
          simp only [hout]
          exact h2
        · rw [stepTrace_cons]
          simp only [hout]
          rw [allItems_cons]
          exact List.mem_append.mpr (Or.inr h3)
    · -- final step: the whole call is in the buffer, the step completes
      have hm'le : (s.buffer ++ f).length ≤ (botTok ++ (J ++ eotTok)).length := by
        have h0 := congrArg List.length hctP
        rw [List.length_append] at h0
        omega
      have hm'eq : (s.buffer ++ f).length = (botTok ++ (J ++ eotTok)).length := by omega
      have hrestlen : fs.flatten = [] := by
        have h0 := congrArg List.length hctP
        rw [List.length_append, hm'eq] at h0
        have h1 : fs.flatten.length = 0 := by omega
        exact List.length_eq_zero.mp h1
      have hctT : s.buffer ++ f = botTok ++ (J ++ eotTok) := by
        have h0 := hct
        rw [hm'eq, List.take_length] at h0
        exact h0.symm
      have hb : containsTok (s.buffer ++ f) botTok = true := by
        rw [hctT]
        exact containsTok_true_of_find (find_T_bot _)
      have hf0 : strFind (s.buffer ++ f) botTok = some 0 := by
        rw [hctT]
        exact find_T_bot _
      have he0 : strFindFrom (s.buffer ++ f) eotTok 0 =
          some (botTok.length + J.length) := by
        rw [hctT]
        exact find_T_eot hJe
      have hsl : pyLoads (pyStrip (strSlice (s.buffer ++ f) (0 + botTok.length)
          (botTok.length + J.length))) = some (.obj kvs) := by
        rw [hctT, Nat.zero_add, slice_T_J]
        exact hJ
      have hstep : parse_streaming_increment s f =
          completeOut { s with buffer := s.buffer ++ f } (s.buffer ++ f)
            (botTok.length + J.length) (pyGet kvs keyName)
            (pyGetD kvs keyArgs (.obj [])) := by
        apply step_ok hb
        simp only [streamInner, hf0, he0]
        exact completeBranch_obj hsl
      have hZ : ctidNorm s.current_tool_id = 0 := by
        rcases hinv with ⟨h1, _⟩ | ⟨h1, _⟩ <;> simp [ctidNorm, h1]
      have hcn : (ctidNorm ({ s with buffer := s.buffer ++ f } :
          Dots2State).current_tool_id).toNat = 0 := by
        rw [show ctidNorm ({ s with buffer := s.buffer ++ f } :
          Dots2State).current_tool_id = ctidNorm s.current_tool_id from rfl, hZ]
        rfl
      have hbuf2 : (completeOut { s with buffer := s.buffer ++ f } (s.buffer ++ f)
          (botTok.length + J.length) (pyGet kvs keyName)
          (pyGetD kvs keyArgs (.obj []))).2.buffer = [] := by
        rw [completeOut_buffer, hctT]
        exact drop_T_end J
      have hctid2 : (completeOut { s with buffer := s.buffer ++ f } (s.buffer ++ f)
          (botTok.length + J.length) (pyGet kvs keyName)
          (pyGetD kvs keyArgs (.obj []))).2.current_tool_id = 1 := by
        rw [completeOut_ctid]
        rw [show ctidNorm ({ s with buffer := s.buffer ++ f } :
          Dots2State).current_tool_id = ctidNorm s.current_tool_id from rfl, hZ]
        decide
      have hprev2 : (completeOut { s with buffer := s.buffer ++ f } (s.buffer ++ f)
          (botTok.length + J.length) (pyGet kvs keyName)
          (pyGetD kvs keyArgs (.obj []))).2.prev_tool_call_arr =
          [Json.obj [(keyName, optJson (pyGet kvs keyName)),
                     (keyArgs, pyGetD kvs keyArgs (.obj []))]] := by
        rw [completeOut_prev, hcn]
        rcases hinv with ⟨h1, h2⟩ | ⟨h1, h2⟩
        · rw [show prevBase { s with buffer := s.buffer ++ f } = ([] : List Json)
            from by simp [prevBase, h1]]
          rfl
        · rw [show prevBase { s with buffer := s.buffer ++ f } = s.prev_tool_call_arr
            from by simp [prevBase, h1]]
          rw [show padTo s.prev_tool_call_arr 0 (Json.obj []) = s.prev_tool_call_arr
            from by simp [padTo, h2]]
          exact set_zero_of_length_one h2 _
      have hcalls : (parse_streaming_increment s f).1.calls =
          [(⟨0, pyGet kvs keyName, paramsOf (pyGetD kvs keyArgs (.obj []))⟩ :
            ToolCallItem)] := by
        rw [hstep, completeOut_calls]
        rw [show ctidNorm ({ s with buffer := s.buffer ++ f } :
          Dots2State).current_tool_id = ctidNorm s.current_tool_id from rfl, hZ]
      have hemp := endState_nil_frags fs (List.flatten_eq_nil_iff.mp hrestlen) hbuf2
      refine ⟨?_, ?_, ?_⟩
      · rw [endState_cons, hstep, hemp.1]
        exact hprev2
      · rw [endState_cons, hstep, hemp.1]
        exact hctid2
      · rw [stepTrace_cons, allItems_cons]
        apply List.mem_append.mpr
        left
        show (⟨0, pyGet kvs keyName, paramsOf (pyGetD kvs keyArgs (.obj []))⟩ :
          ToolCallItem) ∈ (parse_streaming_increment s f).1.calls
        rw [hcalls]
        exact List.mem_cons_self _ _


lemma detect_T_single {J : Str} {kvs : List (Str × Json)}
    (hJ : pyLoads (pyStrip J) = some (.obj kvs))
    (hJe : containsTok J eotTok = false) :
    detect_and_parse (botTok ++ (J ++ eotTok)) =
      ⟨[], [⟨0, pyGet kvs keyName, pyDumps (pyGetD kvs keyArgs (.obj []))⟩]⟩ := by
  have hfind := find_T_bot (J ++ eotTok)
  have hfrom : strFindFrom (botTok ++ (J ++ eotTok)) eotTok (0 + botTok.length) =
      some (botTok.length + J.length) := by
    rw [Nat.zero_add]
    exact findFrom_T_eot hJe
  have hslice : strSlice (botTok ++ (J ++ eotTok)) (0 + botTok.length)
      (botTok.length + J.length) = J := by
    rw [Nat.zero_add]
    exact slice_T_J J
  have hdrop : (botTok ++ (J ++ eotTok)).drop (botTok.length + J.length + eotTok.length) =
      ([] : Str) := drop_T_end J
  have hreg : findallRegions (botTok ++ (J ++ eotTok)) = [J] := by
    rw [findallRegions, findallAux_succ]
    simp only [hfind, hfrom, hslice, hdrop]
    rw [findallAux_no_bot (by decide)]
  unfold detect_and_parse
  simp only [hfind, hreg]
  have hpr : processRegions [J] [] =
      .ok [⟨(0 : Int), pyGet kvs keyName, pyDumps (pyGetD kvs keyArgs (.obj []))⟩] := by
    simp [processRegions, hJ, parse_base_json]
  rw [hpr]
  rfl

/-- C3 (amended): chunk-size invariance holds only for splits in which the
first fragment already carries the whole opening delimiter. For a
fully-formed single-call text `bot ++ J ++ eot` (interior a JSON object, no
closing delimiter inside `J`) and any split whose first fragment contains at
least the opening delimiter, the incremental session ends with the same
`{name, arguments}` pair recorded in `prev_tool_call_arr` as the one
returned by one-shot extraction on the unsplit text, and the completing item
carrying that pair is among the emitted items. (The unrestricted claim is
false: a split inside the opening delimiter makes the no-delimiter branch
discard the partial token, and no call is ever produced — see the
counterexample.) -/
theorem C3_chunk_invariance_amended {J : Str} {kvs : List (Str × Json)}
    (f1 : Str) (fs : List Str)
    (hJ : pyLoads (pyStrip J) = some (.obj kvs))
    (hJe : containsTok J eotTok = false)
    (hsplit : f1 ++ fs.flatten = botTok ++ (J ++ eotTok))
    (hf1 : botTok.length ≤ f1.length) :
    detect_and_parse (botTok ++ (J ++ eotTok)) =
      ⟨[], [⟨0, pyGet kvs keyName, pyDumps (pyGetD kvs keyArgs (.obj []))⟩]⟩ ∧
    (endState initState (f1 :: fs)).prev_tool_call_arr =
      [Json.obj [(keyName, optJson (pyGet kvs keyName)),
                 (keyArgs, pyGetD kvs keyArgs (.obj []))]] ∧
    (endState initState (f1 :: fs)).current_tool_id = 1 ∧
    (⟨0, pyGet kvs keyName, paramsOf (pyGetD kvs keyArgs (.obj []))⟩ : ToolCallItem) ∈
      allItems (stepTrace initState (f1 :: fs)) := by
  have hm0 : (0 : Nat) < (botTok ++ (J ++ eotTok)).length := by
    have hb20 : botTok.length = 20 := by decide
    rw [List.length_append]
    omega
  have hcat0 : initState.buffer ++ (f1 :: fs).flatten = botTok ++ (J ++ eotTok) := by
    simpa using hsplit
  exact ⟨detect_T_single hJ hJe,
    C3_aux hJ hJe (f1 :: fs) initState 0 rfl (Or.inr ⟨rfl, f1, fs, rfl, hf1⟩) hm0
      (Or.inl ⟨rfl, rfl⟩) hcat0⟩

/-- C3 counterexample: the unrestricted claim fails when a fragment boundary
splits the opening delimiter. On the unsplit text one-shot extraction finds
the call, but feeding the two fragments `"<dots_"` and the rest incrementally
emits no call item at all and records nothing: the first step takes the
no-delimiter branch and throws the partial opening token away. -/
theorem C3_chunk_invariance_counterexample :
    "<dots_".data ++ ((botTok ++ (jsonF ++ eotTok)).drop 6) =
      botTok ++ (jsonF ++ eotTok) ∧
    (detect_and_parse (botTok ++ (jsonF ++ eotTok))).calls ≠ [] ∧
    allItems (stepTrace initState
      ["<dots_".data, (botTok ++ (jsonF ++ eotTok)).drop 6]) = [] ∧
    (endState initState
      ["<dots_".data, (botTok ++ (jsonF ++ eotTok)).drop 6]).prev_tool_call_arr = [] := by
  refine ⟨by decide, by decide, by decide, by decide⟩

theorem C3_chunk_invariance_amended_witness :
    pyLoads (pyStrip jsonF) = some (.obj kvsF) ∧
    containsTok jsonF eotTok = false ∧
    (botTok ++ jsonF) ++ ([eotTok] : List Str).flatten = botTok ++ (jsonF ++ eotTok) ∧
    botTok.length ≤ (botTok ++ jsonF).length ∧
    (detect_and_parse (botTok ++ (jsonF ++ eotTok)) =
        ⟨[], [⟨0, pyGet kvsF keyName, pyDumps (pyGetD kvsF keyArgs (.obj []))⟩]⟩ ∧
      (endState initState ((botTok ++ jsonF) :: [eotTok])).prev_tool_call_arr =
        [Json.obj [(keyName, optJson (pyGet kvsF keyName)),
                   (keyArgs, pyGetD kvsF keyArgs (.obj []))]] ∧
      (endState initState ((botTok ++ jsonF) :: [eotTok])).current_tool_id = 1 ∧
      (⟨0, pyGet kvsF keyName, paramsOf (pyGetD kvsF keyArgs (.obj []))⟩ : ToolCallItem) ∈
        allItems (stepTrace initState ((botTok ++ jsonF) :: [eotTok]))) :=
  ⟨by decide, by decide, by simp, by decide,
   C3_chunk_invariance_amended (botTok ++ jsonF) [eotTok] (by decide) (by decide)
     (by simp) (by decide)⟩

end DotsVerify
